import Mathlib

set_option linter.unusedVariables false

/-!
Verification of the Concerto metamodel name-resolution pass
(`packages/concerto-core/lib/introspect/metamodel.js`).

The JSON metamodel trees the JavaScript functions walk are embedded as an
inductive `Node` whose constructors mirror the `$class` kinds of the
`concerto.metamodel` schema.  Fields that none of the functions under
verification ever read (`location`, validators, default values, `isArray`,
`isOptional`, `isAbstract`, `identified`, `uri`, `sourceUri`,
`concertoVersion`, the numeric payload of `DecoratorNumber`) are omitted;
they are inert data carried through unchanged.

Thrown JavaScript errors are embedded as `Except JSError`; `JSError.message`
renders the exact message string the source builds.  Unguarded crashes
(property access on `undefined`) are embedded as `JSError.typeError`.

`resolveMetaModel` mutates `TypeIdentifier.namespace` cells in place on a
deep copy of its input; that stateful pass is embedded a second time in
store-passing style (`NodeS`, `Store`) so the frame property "the caller's
argument is never mutated" is expressible.
-/

namespace Concerto

/-- `concerto.metamodel.TypeIdentifier`: `{name, namespace?}`.  The optional
`namespace` field is called `ns` because `namespace` is a Lean keyword. -/
structure TypeIdentifier where
  name : String
  ns : Option String
deriving DecidableEq, Repr

/-- Errors thrown by the source.  `nameNotFound` and `declNotFound` are the
two `throw new Error(...)` sites; `typeError` stands for an unguarded
JavaScript `TypeError` raised by a property access on `undefined`. -/
inductive JSError where
  | nameNotFound (name : String)
  | declNotFound (name : String) (ns : String)
  | typeError (msg : String)
deriving DecidableEq, Repr

/-- The exact message string the JavaScript error carries. -/
def JSError.message : JSError → String
  | .nameNotFound name => s!"Name {name} not found"
  | .declNotFound name ns => s!"Declaration {name} in namespace {ns} not found"
  | .typeError msg => s!"TypeError: {msg}"

/-- `concerto.metamodel.Import`: `ImportAll{namespace}` or
`ImportType{namespace, name}` (the optional `uri` is inert and omitted). -/
inductive Import where
  | importAll (ns : String)
  | importType (ns : String) (name : String)
deriving DecidableEq, Repr

/-- The `namespace` field shared by both import kinds. -/
def Import.ns : Import → String
  | .importAll ns => ns
  | .importType ns _ => ns

/-- Metamodel JSON nodes, one constructor per `$class` the source
dispatches on (plus the three decorator-literal kinds that fall through
the `switch` untouched).  `Option (List _)` models an optional array
field: `none` is an absent field (`undefined` in JavaScript). -/
inductive Node where
  | model (ns : String) (imports : Option (List Import))
      (declarations : Option (List Node))
  | assetDecl (name : String) (superType : Option TypeIdentifier)
      (properties : List Node) (decorators : Option (List Node))
  | conceptDecl (name : String) (superType : Option TypeIdentifier)
      (properties : List Node) (decorators : Option (List Node))
  | eventDecl (name : String) (superType : Option TypeIdentifier)
      (properties : List Node) (decorators : Option (List Node))
  | transactionDecl (name : String) (superType : Option TypeIdentifier)
      (properties : List Node) (decorators : Option (List Node))
  | participantDecl (name : String) (superType : Option TypeIdentifier)
      (properties : List Node) (decorators : Option (List Node))
  | enumDecl (name : String) (properties : List Node)
      (decorators : Option (List Node))
  | enumProperty (name : String) (decorators : Option (List Node))
  | objectProperty (name : String) (type : TypeIdentifier)
      (decorators : Option (List Node))
  | relationshipProperty (name : String) (type : TypeIdentifier)
      (decorators : Option (List Node))
  | booleanProperty (name : String) (decorators : Option (List Node))
  | dateTimeProperty (name : String) (decorators : Option (List Node))
  | stringProperty (name : String) (decorators : Option (List Node))
  | doubleProperty (name : String) (decorators : Option (List Node))
  | integerProperty (name : String) (decorators : Option (List Node))
  | longProperty (name : String) (decorators : Option (List Node))
  | decorator (name : String) (arguments : Option (List Node))
  | decoratorString (value : String)
  | decoratorNumber
  | decoratorBoolean (value : Bool)
  | decoratorTypeReference (type : TypeIdentifier)
deriving Repr

/-- Reading `.name` off a node.  Nodes without a `name` field give
JavaScript `undefined`, which coerces to the string `"undefined"` when the
source uses it as an object key (`table[decl.name] = ...`); only
declaration nodes are ever exercised here. -/
def Node.getName : Node → String
  | .model _ _ _ => "undefined"
  | .assetDecl name _ _ _ => name
  | .conceptDecl name _ _ _ => name
  | .eventDecl name _ _ _ => name
  | .transactionDecl name _ _ _ => name
  | .participantDecl name _ _ _ => name
  | .enumDecl name _ _ => name
  | .enumProperty name _ => name
  | .objectProperty name _ _ => name
  | .relationshipProperty name _ _ => name
  | .booleanProperty name _ => name
  | .dateTimeProperty name _ => name
  | .stringProperty name _ => name
  | .doubleProperty name _ => name
  | .integerProperty name _ => name
  | .longProperty name _ => name
  | .decorator name _ => name
  | .decoratorString _ => "undefined"
  | .decoratorNumber => "undefined"
  | .decoratorBoolean _ => "undefined"
  | .decoratorTypeReference _ => "undefined"

/-- Reading `.imports` off a node (`undefined` on non-`Model` nodes). -/
def Node.importsV : Node → Option (List Import)
  | .model _ imports _ => imports
  | _ => none

/-- Reading `.declarations` off a node (`undefined` on non-`Model` nodes). -/
def Node.declarationsV : Node → Option (List Node)
  | .model _ _ declarations => declarations
  | _ => none

/-- Reading `.namespace` off a node; only exercised on `Model` nodes
(elsewhere JavaScript would yield `undefined`, coerced to `"undefined"`
as an object value). -/
def Node.namespaceV : Node → String
  | .model ns _ _ => ns
  | _ => "undefined"

/-- The name table: a JavaScript object used as a string-to-string map.
Writes shadow older bindings, so it is embedded as an association list
where `tableSet` prepends and `tableGet` returns the newest binding. -/
abbrev Table := List (String × String)

/-- `table[name]` (first, i.e. newest, binding wins). -/
def tableGet : Table → String → Option String
  | [], _ => none
  | (k, v) :: t, name => if k = name then some v else tableGet t name

/-- `table[name] = ns` (last write wins on lookups). -/
def tableSet (t : Table) (name ns : String) : Table :=
  (name, ns) :: t

/-- Modelled from the spec: an entry of the external namespace registry
(`ModelFile` in `modelmanager.js`, which is not part of the fragment under
verification).  Per the spec it answers `hasLocalDeclaration` (here:
membership in `declarationNames`) and `localDeclarationNames` (here: the
ordered `declarationNames`, each declaration's `getName()`). -/
structure ModelFile where
  ns : String
  declarationNames : List String
deriving DecidableEq, Repr

/-- Modelled from the spec: the external registry (`ModelManager`), a
collection of model files with unique namespaces. -/
abbrev Registry := List ModelFile

/-- Modelled from the spec: `modelManager.getModelFile(namespace)`;
`none` is JavaScript `undefined` for an unknown namespace. -/
def getModelFile : Registry → String → Option ModelFile
  | [], _ => none
  | mf :: reg, ns => if mf.ns = ns then some mf else getModelFile reg ns

/-- One iteration of the `imports.forEach` loop of `createNameTable`.
`getModelFile` is called before the `$class` dispatch; using its result
when it is `undefined` crashes at the method call of each branch. -/
def processImport (reg : Registry) (t : Table) (imp : Import) :
    Except JSError Table :=
  let mfOpt := getModelFile reg imp.ns
  match imp with
  | .importType ns name =>
    match mfOpt with
    | none => .error (.typeError
        "Cannot read properties of undefined (reading 'getLocalType')")
    | some mf =>
      if name ∈ mf.declarationNames then
        .ok (tableSet t name ns)
      else
        .error (.declNotFound name ns)
  | .importAll ns =>
    match mfOpt with
    | none => .error (.typeError
        "Cannot read properties of undefined (reading 'getAllDeclarations')")
    | some mf =>
      .ok (mf.declarationNames.foldl (fun t d => tableSet t d ns) t)

/-- The object literal seeding the table in `createNameTable`.  Note the
key `"Transaction "` carries a trailing space, exactly as in the source. -/
def builtinTable : Table :=
  [("Concept", "concerto"),
   ("Asset", "concerto"),
   ("Participant", "concerto"),
   ("Transaction ", "concerto"),
   ("Event", "concerto")]

/-- `MetaModel.createNameTable(modelManager, metaModel)`.  Reads
`metaModel.imports` unguarded (absent field crashes with a `TypeError` at
`imports.forEach`), then processes imports in order, then — guarded by
`if (metaModel.declarations)` — binds every local declaration name to the
model's own namespace. -/
def createNameTable (reg : Registry) (metaModel : Node) :
    Except JSError Table :=
  match metaModel.importsV with
  | none => .error (.typeError
      "Cannot read properties of undefined (reading 'forEach')")
  | some imports => do
    let t ← imports.foldlM (fun t imp => processImport reg t imp) builtinTable
    match metaModel.declarationsV with
    | none => .ok t
    | some declarations =>
      .ok (declarations.foldl
        (fun t decl => tableSet t decl.getName metaModel.namespaceV) t)

/-- `MetaModel.resolveName(name, table)`.  The source tests JavaScript
falsiness of `table[name]`: the throw fires both when the key is absent
(`undefined`) and when the stored string is empty (`""` is falsy). -/
def resolveName (name : String) (table : Table) : Except JSError String :=
  match tableGet table name with
  | none => .error (.nameNotFound name)
  | some ns => if ns = "" then .error (.nameNotFound name) else .ok ns

/-- The `if (metaModel.superType)` block of the class-declaration cases of
`resolveTypeNames`: resolve the super type's name and write it onto the
`namespace` field. -/
def resolveSuperType (st : Option TypeIdentifier) (table : Table) :
    Except JSError (Option TypeIdentifier) :=
  match st with
  | none => .ok none
  | some ty => (resolveName ty.name table).map
      (fun ns => some { ty with ns := some ns })

mutual

/-- `MetaModel.resolveTypeNames(metaModel, table)`: the `switch` on
`$class`.  The source mutates nodes in place and returns the same node;
here the (equal) updated node is rebuilt.  Kinds with no `case` label
(the six primitive property kinds and the three scalar decorator
literals) fall through the `switch` and are returned unchanged.  The
`EnumProperty`/`ObjectProperty`/`RelationshipProperty` case reads
`metaModel.type.name`; the `EnumProperty` schema has no `type` field, so
there that access is a `TypeError` on `undefined`. -/
def resolveTypeNames (n : Node) (table : Table) : Except JSError Node :=
  match n with
  | .model ns imports declarations =>
    match declarations with
    | none => .ok (.model ns imports none)
    | some ds => (resolveNodeList ds table).map
        (fun ds' => .model ns imports (some ds'))
  | .assetDecl name superType properties decorators => do
    let st' ← resolveSuperType superType table
    let props' ← resolveNodeList properties table
    let decs' ← resolveOptList decorators table
    .ok (.assetDecl name st' props' decs')
  | .conceptDecl name superType properties decorators => do
    let st' ← resolveSuperType superType table
    let props' ← resolveNodeList properties table
    let decs' ← resolveOptList decorators table
    .ok (.conceptDecl name st' props' decs')
  | .eventDecl name superType properties decorators => do
    let st' ← resolveSuperType superType table
    let props' ← resolveNodeList properties table
    let decs' ← resolveOptList decorators table
    .ok (.eventDecl name st' props' decs')
  | .transactionDecl name superType properties decorators => do
    let st' ← resolveSuperType superType table
    let props' ← resolveNodeList properties table
    let decs' ← resolveOptList decorators table
    .ok (.transactionDecl name st' props' decs')
  | .participantDecl name superType properties decorators => do
    let st' ← resolveSuperType superType table
    let props' ← resolveNodeList properties table
    let decs' ← resolveOptList decorators table
    .ok (.participantDecl name st' props' decs')
  | .enumDecl name properties decorators =>
    match decorators with
    | none => .ok (.enumDecl name properties none)
    | some ds => (resolveNodeList ds table).map
        (fun ds' => .enumDecl name properties (some ds'))
  | .enumProperty name decorators =>
    .error (.typeError "Cannot read properties of undefined (reading 'name')")
  | .objectProperty name ty decorators => do
    let ns ← resolveName ty.name table
    let decs' ← resolveOptList decorators table
    .ok (.objectProperty name { ty with ns := some ns } decs')
  | .relationshipProperty name ty decorators => do
    let ns ← resolveName ty.name table
    let decs' ← resolveOptList decorators table
    .ok (.relationshipProperty name { ty with ns := some ns } decs')
  | .booleanProperty name decorators => .ok (.booleanProperty name decorators)
  | .dateTimeProperty name decorators =>
    .ok (.dateTimeProperty name decorators)
  | .stringProperty name decorators => .ok (.stringProperty name decorators)
  | .doubleProperty name decorators => .ok (.doubleProperty name decorators)
  | .integerProperty name decorators =>
    .ok (.integerProperty name decorators)
  | .longProperty name decorators => .ok (.longProperty name decorators)
  | .decorator name arguments =>
    match arguments with
    | none => .ok (.decorator name none)
    | some args => (resolveNodeList args table).map
        (fun args' => .decorator name (some args'))
  | .decoratorString value => .ok (.decoratorString value)
  | .decoratorNumber => .ok .decoratorNumber
  | .decoratorBoolean value => .ok (.decoratorBoolean value)
  | .decoratorTypeReference ty =>
    (resolveName ty.name table).map
      (fun ns => .decoratorTypeReference { ty with ns := some ns })

/-- A `forEach` of `resolveTypeNames` over a node array (errors abort). -/
def resolveNodeList (ns : List Node) (table : Table) :
    Except JSError (List Node) :=
  match ns with
  | [] => .ok []
  | d :: ds => do
    let d' ← resolveTypeNames d table
    let ds' ← resolveNodeList ds table
    .ok (d' :: ds')

/-- `resolveNodeList` under the `if (metaModel.decorators)` guard. -/
def resolveOptList (o : Option (List Node)) (table : Table) :
    Except JSError (Option (List Node)) :=
  match o with
  | none => .ok none
  | some ds => (resolveNodeList ds table).map some

end

/-! ## Store-passing embedding of the in-place resolution pass

`resolveTypeNames` mutates only the `namespace` field of `TypeIdentifier`
nodes, in place.  To state the frame property of `resolveMetaModel` (the
caller's argument is never mutated) the `TypeIdentifier` cells are held in
an explicit store and the tree (`NodeS`) holds references (`Nat` indices)
into it; the walk updates cells through those references, mirroring the
JavaScript heap mutation. -/

abbrev Store := List TypeIdentifier

/-- The default cell for out-of-bounds reads (never hit on well-formed
states, where every reference is in bounds). -/
def defaultTI : TypeIdentifier := ⟨"", none⟩

/-- Dereference a `TypeIdentifier` cell. -/
def readTI (s : Store) (r : Nat) : TypeIdentifier := s.getD r defaultTI

/-- Overwrite a `TypeIdentifier` cell in place. -/
def writeTI (s : Store) (r : Nat) (v : TypeIdentifier) : Store := s.set r v

/-- `Node` with `TypeIdentifier` fields replaced by store references. -/
inductive NodeS where
  | model (ns : String) (imports : Option (List Import))
      (declarations : Option (List NodeS))
  | assetDecl (name : String) (superType : Option Nat)
      (properties : List NodeS) (decorators : Option (List NodeS))
  | conceptDecl (name : String) (superType : Option Nat)
      (properties : List NodeS) (decorators : Option (List NodeS))
  | eventDecl (name : String) (superType : Option Nat)
      (properties : List NodeS) (decorators : Option (List NodeS))
  | transactionDecl (name : String) (superType : Option Nat)
      (properties : List NodeS) (decorators : Option (List NodeS))
  | participantDecl (name : String) (superType : Option Nat)
      (properties : List NodeS) (decorators : Option (List NodeS))
  | enumDecl (name : String) (properties : List NodeS)
      (decorators : Option (List NodeS))
  | enumProperty (name : String) (decorators : Option (List NodeS))
  | objectProperty (name : String) (type : Nat)
      (decorators : Option (List NodeS))
  | relationshipProperty (name : String) (type : Nat)
      (decorators : Option (List NodeS))
  | booleanProperty (name : String) (decorators : Option (List NodeS))
  | dateTimeProperty (name : String) (decorators : Option (List NodeS))
  | stringProperty (name : String) (decorators : Option (List NodeS))
  | doubleProperty (name : String) (decorators : Option (List NodeS))
  | integerProperty (name : String) (decorators : Option (List NodeS))
  | longProperty (name : String) (decorators : Option (List NodeS))
  | decorator (name : String) (arguments : Option (List NodeS))
  | decoratorString (value : String)
  | decoratorNumber
  | decoratorBoolean (value : Bool)
  | decoratorTypeReference (type : Nat)
deriving Repr

/-- Reading `.name` off a `NodeS` (see `Node.getName`). -/
def NodeS.getName : NodeS → String
  | .model _ _ _ => "undefined"
  | .assetDecl name _ _ _ => name
  | .conceptDecl name _ _ _ => name
  | .eventDecl name _ _ _ => name
  | .transactionDecl name _ _ _ => name
  | .participantDecl name _ _ _ => name
  | .enumDecl name _ _ => name
  | .enumProperty name _ => name
  | .objectProperty name _ _ => name
  | .relationshipProperty name _ _ => name
  | .booleanProperty name _ => name
  | .dateTimeProperty name _ => name
  | .stringProperty name _ => name
  | .doubleProperty name _ => name
  | .integerProperty name _ => name
  | .longProperty name _ => name
  | .decorator name _ => name
  | .decoratorString _ => "undefined"
  | .decoratorNumber => "undefined"
  | .decoratorBoolean _ => "undefined"
  | .decoratorTypeReference _ => "undefined"

/-- Reading `.imports` off a `NodeS`. -/
def NodeS.importsV : NodeS → Option (List Import)
  | .model _ imports _ => imports
  | _ => none

/-- Reading `.declarations` off a `NodeS`. -/
def NodeS.declarationsV : NodeS → Option (List NodeS)
  | .model _ _ declarations => declarations
  | _ => none

/-- Reading `.namespace` off a `NodeS`. -/
def NodeS.namespaceV : NodeS → String
  | .model ns _ _ => ns
  | _ => "undefined"

/-- `createNameTable` over the store-passing tree (it reads only names,
imports and declarations, never a `TypeIdentifier` cell). -/
def createNameTableS (reg : Registry) (metaModel : NodeS) :
    Except JSError Table :=
  match metaModel.importsV with
  | none => .error (.typeError
      "Cannot read properties of undefined (reading 'forEach')")
  | some imports => do
    let t ← imports.foldlM (fun t imp => processImport reg t imp) builtinTable
    match metaModel.declarationsV with
    | none => .ok t
    | some declarations =>
      .ok (declarations.foldl
        (fun t decl => tableSet t decl.getName metaModel.namespaceV) t)

/-- The reference of an optional `superType` field. -/
def optRefList : Option Nat → List Nat
  | none => []
  | some r => [r]

mutual

/-- All `TypeIdentifier` references reachable from a node. -/
def refsOfS : NodeS → List Nat
  | .model _ _ declarations => refsOfOptS declarations
  | .assetDecl _ superType properties decorators =>
    optRefList superType ++ refsOfListS properties ++ refsOfOptS decorators
  | .conceptDecl _ superType properties decorators =>
    optRefList superType ++ refsOfListS properties ++ refsOfOptS decorators
  | .eventDecl _ superType properties decorators =>
    optRefList superType ++ refsOfListS properties ++ refsOfOptS decorators
  | .transactionDecl _ superType properties decorators =>
    optRefList superType ++ refsOfListS properties ++ refsOfOptS decorators
  | .participantDecl _ superType properties decorators =>
    optRefList superType ++ refsOfListS properties ++ refsOfOptS decorators
  | .enumDecl _ properties decorators =>
    refsOfListS properties ++ refsOfOptS decorators
  | .enumProperty _ decorators => refsOfOptS decorators
  | .objectProperty _ r decorators => r :: refsOfOptS decorators
  | .relationshipProperty _ r decorators => r :: refsOfOptS decorators
  | .booleanProperty _ decorators => refsOfOptS decorators
  | .dateTimeProperty _ decorators => refsOfOptS decorators
  | .stringProperty _ decorators => refsOfOptS decorators
  | .doubleProperty _ decorators => refsOfOptS decorators
  | .integerProperty _ decorators => refsOfOptS decorators
  | .longProperty _ decorators => refsOfOptS decorators
  | .decorator _ arguments => refsOfOptS arguments
  | .decoratorString _ => []
  | .decoratorNumber => []
  | .decoratorBoolean _ => []
  | .decoratorTypeReference r => [r]

/-- References reachable from a node list. -/
def refsOfListS : List NodeS → List Nat
  | [] => []
  | d :: ds => refsOfS d ++ refsOfListS ds

/-- References reachable from an optional node list. -/
def refsOfOptS : Option (List NodeS) → List Nat
  | none => []
  | some ds => refsOfListS ds

end

/-- Allocate a fresh cell holding a copy of cell `r`
(`JSON.parse(JSON.stringify(...))` duplicates every object, so no cell of
the copy aliases a cell of the original). -/
def copyRef (s : Store) (r : Nat) : Store × Nat :=
  (s ++ [readTI s r], s.length)

/-- `copyRef` under an optional reference. -/
def copyOptRef (s : Store) : Option Nat → Store × Option Nat
  | none => (s, none)
  | some r => ((copyRef s r).1, some (copyRef s r).2)

mutual

/-- The deep copy `JSON.parse(JSON.stringify(mm))`: rebuilds the tree,
allocating a fresh cell (with identical content) for every
`TypeIdentifier` reference. -/
def copyNodeS (s : Store) : NodeS → Store × NodeS
  | .model ns imports declarations =>
    ((copyOptS s declarations).1,
      .model ns imports (copyOptS s declarations).2)
  | .assetDecl name superType properties decorators =>
    ((copyOptS (copyListS (copyOptRef s superType).1 properties).1
        decorators).1,
      .assetDecl name (copyOptRef s superType).2
        (copyListS (copyOptRef s superType).1 properties).2
        (copyOptS (copyListS (copyOptRef s superType).1 properties).1
          decorators).2)
  | .conceptDecl name superType properties decorators =>
    ((copyOptS (copyListS (copyOptRef s superType).1 properties).1
        decorators).1,
      .conceptDecl name (copyOptRef s superType).2
        (copyListS (copyOptRef s superType).1 properties).2
        (copyOptS (copyListS (copyOptRef s superType).1 properties).1
          decorators).2)
  | .eventDecl name superType properties decorators =>
    ((copyOptS (copyListS (copyOptRef s superType).1 properties).1
        decorators).1,
      .eventDecl name (copyOptRef s superType).2
        (copyListS (copyOptRef s superType).1 properties).2
        (copyOptS (copyListS (copyOptRef s superType).1 properties).1
          decorators).2)
  | .transactionDecl name superType properties decorators =>
    ((copyOptS (copyListS (copyOptRef s superType).1 properties).1
        decorators).1,
      .transactionDecl name (copyOptRef s superType).2
        (copyListS (copyOptRef s superType).1 properties).2
        (copyOptS (copyListS (copyOptRef s superType).1 properties).1
          decorators).2)
  | .participantDecl name superType properties decorators =>
    ((copyOptS (copyListS (copyOptRef s superType).1 properties).1
        decorators).1,
      .participantDecl name (copyOptRef s superType).2
        (copyListS (copyOptRef s superType).1 properties).2
        (copyOptS (copyListS (copyOptRef s superType).1 properties).1
          decorators).2)
  | .enumDecl name properties decorators =>
    ((copyOptS (copyListS s properties).1 decorators).1,
      .enumDecl name (copyListS s properties).2
        (copyOptS (copyListS s properties).1 decorators).2)
  | .enumProperty name decorators =>
    ((copyOptS s decorators).1, .enumProperty name (copyOptS s decorators).2)
  | .objectProperty name r decorators =>
    ((copyOptS (copyRef s r).1 decorators).1,
      .objectProperty name (copyRef s r).2
        (copyOptS (copyRef s r).1 decorators).2)
  | .relationshipProperty name r decorators =>
    ((copyOptS (copyRef s r).1 decorators).1,
      .relationshipProperty name (copyRef s r).2
        (copyOptS (copyRef s r).1 decorators).2)
  | .booleanProperty name decorators =>
    ((copyOptS s decorators).1,
      .booleanProperty name (copyOptS s decorators).2)
  | .dateTimeProperty name decorators =>
    ((copyOptS s decorators).1,
      .dateTimeProperty name (copyOptS s decorators).2)
  | .stringProperty name decorators =>
    ((copyOptS s decorators).1,
      .stringProperty name (copyOptS s decorators).2)
  | .doubleProperty name decorators =>
    ((copyOptS s decorators).1,
      .doubleProperty name (copyOptS s decorators).2)
  | .integerProperty name decorators =>
    ((copyOptS s decorators).1,
      .integerProperty name (copyOptS s decorators).2)
  | .longProperty name decorators =>
    ((copyOptS s decorators).1, .longProperty name (copyOptS s decorators).2)
  | .decorator name arguments =>
    ((copyOptS s arguments).1, .decorator name (copyOptS s arguments).2)
  | .decoratorString value => (s, .decoratorString value)
  | .decoratorNumber => (s, .decoratorNumber)
  | .decoratorBoolean value => (s, .decoratorBoolean value)
  | .decoratorTypeReference r =>
    ((copyRef s r).1, .decoratorTypeReference (copyRef s r).2)

/-- Deep copy of a node list. -/
def copyListS (s : Store) : List NodeS → Store × List NodeS
  | [] => (s, [])
  | d :: ds =>
    ((copyListS (copyNodeS s d).1 ds).1,
      (copyNodeS s d).2 :: (copyListS (copyNodeS s d).1 ds).2)

/-- Deep copy of an optional node list. -/
def copyOptS (s : Store) : Option (List NodeS) → Store × Option (List NodeS)
  | none => (s, none)
  | some ds => ((copyListS s ds).1, some (copyListS s ds).2)

end

/-- Resolve the cell `r` points at: look up its `name` in the table and
write the namespace onto the cell (`x.namespace = resolveName(x.name)`). -/
def writeRefS (table : Table) (s : Store) (r : Nat) : Except JSError Store :=
  (resolveName (readTI s r).name table).map
    (fun ns => writeTI s r { readTI s r with ns := some ns })

/-- The `if (metaModel.superType)` block, on a store reference. -/
def resolveSuperRefS (table : Table) (s : Store) :
    Option Nat → Except JSError Store
  | none => .ok s
  | some r => writeRefS table s r

mutual

/-- The store-passing rendering of `resolveTypeNames`: same dispatch and
same visit order as `resolveTypeNames`, but updating `TypeIdentifier`
cells through the store (the tree's shape is not changed by the source's
mutation, only cell contents, so the walk returns the store). -/
def resolveTypeNamesS (table : Table) (s : Store) :
    NodeS → Except JSError Store
  | .model _ _ declarations => resolveOptS table s declarations
  | .assetDecl _ superType properties decorators => do
    let s1 ← resolveSuperRefS table s superType
    let s2 ← resolveListS table s1 properties
    resolveOptS table s2 decorators
  | .conceptDecl _ superType properties decorators => do
    let s1 ← resolveSuperRefS table s superType
    let s2 ← resolveListS table s1 properties
    resolveOptS table s2 decorators
  | .eventDecl _ superType properties decorators => do
    let s1 ← resolveSuperRefS table s superType
    let s2 ← resolveListS table s1 properties
    resolveOptS table s2 decorators
  | .transactionDecl _ superType properties decorators => do
    let s1 ← resolveSuperRefS table s superType
    let s2 ← resolveListS table s1 properties
    resolveOptS table s2 decorators
  | .participantDecl _ superType properties decorators => do
    let s1 ← resolveSuperRefS table s superType
    let s2 ← resolveListS table s1 properties
    resolveOptS table s2 decorators
  | .enumDecl _ _ decorators => resolveOptS table s decorators
  | .enumProperty _ _ =>
    .error (.typeError "Cannot read properties of undefined (reading 'name')")
  | .objectProperty _ r decorators => do
    let s1 ← writeRefS table s r
    resolveOptS table s1 decorators
  | .relationshipProperty _ r decorators => do
    let s1 ← writeRefS table s r
    resolveOptS table s1 decorators
  | .booleanProperty _ _ => .ok s
  | .dateTimeProperty _ _ => .ok s
  | .stringProperty _ _ => .ok s
  | .doubleProperty _ _ => .ok s
  | .integerProperty _ _ => .ok s
  | .longProperty _ _ => .ok s
  | .decorator _ arguments => resolveOptS table s arguments
  | .decoratorString _ => .ok s
  | .decoratorNumber => .ok s
  | .decoratorBoolean _ => .ok s
  | .decoratorTypeReference r => writeRefS table s r

/-- `forEach` of the store-passing walk over a node array. -/
def resolveListS (table : Table) (s : Store) :
    List NodeS → Except JSError Store
  | [] => .ok s
  | d :: ds => do
    let s1 ← resolveTypeNamesS table s d
    resolveListS table s1 ds

/-- The walk under an `if (xs)` presence guard. -/
def resolveOptS (table : Table) (s : Store) :
    Option (List NodeS) → Except JSError Store
  | none => .ok s
  | some ds => resolveListS table s ds

end

/-- Modelled from the spec: the external structural validator
(`validateMetaModel` delegates to the external serializer round trip),
which on valid input returns an equivalent, canonicalized tree built
afresh — it never mutates its argument.  Embedded as a fresh deep copy of
the (assumed valid) input. -/
def validateMetaModelS (s : Store) (metaModel : NodeS) : Store × NodeS :=
  copyNodeS s metaModel

/-- `MetaModel.resolveMetaModel(modelManager, metaModel, validate)`:
validate (or not), deep-copy, build the name table from the validated
model, then resolve the copy in place.  Returns the final store and the
resolved copy. -/
def resolveMetaModelS (reg : Registry) (s : Store) (metaModel : NodeS)
    (validate : Bool) : Except JSError (Store × NodeS) :=
  let p := if validate then validateMetaModelS s metaModel
    else (s, metaModel)
  let q := copyNodeS p.1 p.2
  do
    let table ← createNameTableS reg p.2
    let s3 ← resolveTypeNamesS table q.1 q.2
    .ok (s3, q.2)

/-! ## Basic lemmas about the embedded operations -/

@[simp]
theorem errorBind {ε α β : Type} (e : ε) (g : α → Except ε β) :
    (Except.error e >>= g) = Except.error e := rfl

@[simp]
theorem okBind {ε α β : Type} (a : α) (g : α → Except ε β) :
    (Except.ok a >>= g : Except ε β) = g a := rfl

@[simp]
theorem errorMap {ε α β : Type} (e : ε) (f : α → β) :
    (Except.error e : Except ε α).map f = Except.error e := rfl

@[simp]
theorem okMap {ε α β : Type} (a : α) (f : α → β) :
    (Except.ok a : Except ε α).map f = Except.ok (f a) := rfl

theorem bind_ok_inv {ε α β : Type} {e : Except ε α} {g : α → Except ε β}
    {b : β} (h : (e >>= g) = .ok b) : ∃ a, e = .ok a ∧ g a = .ok b := by
  cases e with
  | error err => simp at h
  | ok a => exact ⟨a, rfl, h⟩

theorem map_ok_inv {ε α β : Type} {e : Except ε α} {f : α → β} {b : β}
    (h : e.map f = .ok b) : ∃ a, e = .ok a ∧ b = f a := by
  cases e with
  | error err => simp at h
  | ok a => simp at h; exact ⟨a, rfl, h.symm⟩

@[simp]
theorem tableGet_tableSet_self (t : Table) (k v : String) :
    tableGet (tableSet t k v) k = some v := by
  simp [tableSet, tableGet]

theorem tableGet_tableSet_other (t : Table) (k v n : String) (h : k ≠ n) :
    tableGet (tableSet t k v) n = tableGet t n := by
  simp [tableSet, tableGet, h]

/-- The final `declarations.forEach` loop of `createNameTable` binds every
listed declaration name to `mns`, leaving all other names untouched. -/
theorem localsFold_get (ds : List Node) (mns : String) (t : Table)
    (n : String) :
    tableGet (ds.foldl (fun acc d => tableSet acc d.getName mns) t) n
      = if n ∈ ds.map Node.getName then some mns else tableGet t n := by
  induction ds generalizing t with
  | nil => simp
  | cons d ds ih =>
    simp only [List.foldl_cons, ih, List.map_cons, List.mem_cons]
    by_cases hm : n ∈ ds.map Node.getName
    · simp [hm]
    · by_cases hd : n = d.getName
      · simp [hm, hd]
      · rw [tableGet_tableSet_other t d.getName mns n (fun h => hd h.symm)]
        simp [hd, hm]

/-- `resolveName` never raises anything but `nameNotFound`, and it carries
exactly the looked-up name. -/
theorem resolveName_error_inv {name : String} {table : Table} {e : JSError}
    (h : resolveName name table = .error e) : e = .nameNotFound name := by
  unfold resolveName at h
  split at h
  · injection h with h
    exact h.symm
  · split at h
    · injection h with h
      exact h.symm
    · exact Except.noConfusion h

/-- `resolveSuperType` never raises anything but `nameNotFound`. -/
theorem resolveSuperType_error_inv {st : Option TypeIdentifier}
    {table : Table} {e : JSError}
    (h : resolveSuperType st table = .error e) :
    ∃ name, e = .nameNotFound name := by
  cases st with
  | none => exact Except.noConfusion h
  | some ty =>
    simp only [resolveSuperType] at h
    cases hr : resolveName ty.name table with
    | error e2 =>
      rw [hr] at h
      simp only [errorMap] at h
      injection h with h
      exact ⟨ty.name, by rw [← h]; exact resolveName_error_inv hr⟩
    | ok ns =>
      rw [hr] at h
      simp at h

/-! ## C1: the built-in seeds -/

/-- **C1.** The claim says the five short names `Concept`, `Asset`,
`Participant`, `Transaction`, `Event` are seeded and each resolves to the
built-in namespace.  The source seeds the key `"Transaction "` with a
trailing space, so on a model with no imports and no local declarations
`resolveName "Transaction"` throws `Name Transaction not found` while the
other four built-ins resolve to `"concerto"`.  This theorem evaluates the
code at that input. -/
theorem c1_builtin_transaction_trailing_space :
    createNameTable [] (.model "org.acme" (some []) (some []))
      = .ok builtinTable
    ∧ resolveName "Concept" builtinTable = .ok "concerto"
    ∧ resolveName "Asset" builtinTable = .ok "concerto"
    ∧ resolveName "Participant" builtinTable = .ok "concerto"
    ∧ resolveName "Event" builtinTable = .ok "concerto"
    ∧ resolveName "Transaction" builtinTable
        = .error (.nameNotFound "Transaction")
    ∧ resolveName "Transaction " builtinTable = .ok "concerto" :=
  ⟨rfl, rfl, rfl, rfl, rfl, rfl, rfl⟩

/-! ## C2: decorators on primitive property kinds are not visited -/

/-- **C2 counterexample.** A `BooleanProperty` carrying a decorator whose
`DecoratorTypeReference` argument names `Foo`, with `Foo -> org.ext` in
the table: `resolveTypeNames` returns the node unchanged, the reference's
`namespace` still unresolved — refuting the claim that decorator
recursion happens on every property kind. -/
theorem c2_boolean_property_decorator_unresolved :
    resolveTypeNames
      (.booleanProperty "flag"
        (some [.decorator "D" (some [.decoratorTypeReference ⟨"Foo", none⟩])]))
      [("Foo", "org.ext")]
      = .ok (.booleanProperty "flag"
          (some [.decorator "D"
            (some [.decoratorTypeReference ⟨"Foo", none⟩])]))
    ∧ tableGet [("Foo", "org.ext")] "Foo" = some "org.ext" :=
  ⟨rfl, rfl⟩

/-- **C2 amended.** The six primitive property kinds have no `case` label
in the `resolveTypeNames` switch: such nodes fall through and are returned
unchanged, so decorators attached to them (and any `DecoratorTypeReference`
arguments inside) are never visited and stay unresolved.  Decorator
recursion happens only on declaration kinds, `ObjectProperty`,
`RelationshipProperty` and (unreachably) `EnumProperty`. -/
theorem c2_primitive_properties_fall_through :
    ∀ (table : Table) (name : String) (decorators : Option (List Node)),
      resolveTypeNames (.booleanProperty name decorators) table
          = .ok (.booleanProperty name decorators)
      ∧ resolveTypeNames (.dateTimeProperty name decorators) table
          = .ok (.dateTimeProperty name decorators)
      ∧ resolveTypeNames (.stringProperty name decorators) table
          = .ok (.stringProperty name decorators)
      ∧ resolveTypeNames (.doubleProperty name decorators) table
          = .ok (.doubleProperty name decorators)
      ∧ resolveTypeNames (.integerProperty name decorators) table
          = .ok (.integerProperty name decorators)
      ∧ resolveTypeNames (.longProperty name decorators) table
          = .ok (.longProperty name decorators) :=
  fun _ _ _ => ⟨rfl, rfl, rfl, rfl, rfl, rfl⟩

/-! ## C4: EnumDeclaration resolves only its own decorators -/

/-- **C4.** On an `EnumDeclaration` node, `resolveTypeNames` recurses only
into the declaration's own decorators; the `properties` list (the
`EnumProperty` children, decorators and all) is returned exactly as given,
so `DecoratorTypeReference` arguments inside enum-property decorators are
left unresolved by the pass. -/
theorem c4_enum_decl_ignores_enum_properties
    (name : String) (properties : List Node) (table : Table) :
    resolveTypeNames (.enumDecl name properties none) table
        = .ok (.enumDecl name properties none)
    ∧ ∀ decorators,
        resolveTypeNames (.enumDecl name properties (some decorators)) table
          = (resolveNodeList decorators table).map
              (fun ds => Node.enumDecl name properties (some ds)) :=
  ⟨rfl, fun _ => rfl⟩

/-! ## C5: resolveName is a falsy-guarded single lookup -/

/-- **C5 counterexample.** The claim says `resolveName` fails *exactly*
when the name has no entry.  The source tests JavaScript falsiness of
`table[name]`, and the empty string is falsy: with the entry
`Foo -> ""` present, the lookup still throws `Name Foo not found`. -/
theorem c5_empty_string_entry_still_fails :
    tableGet [("Foo", "")] "Foo" = some ""
    ∧ resolveName "Foo" [("Foo", "")] = .error (.nameNotFound "Foo") :=
  ⟨rfl, rfl⟩

/-- **C5 amended.** `resolveName(name, table)` is a single table lookup
that fails with an error naming the unresolved identifier exactly when
`name` has no entry in the table *or its entry is the empty string* (the
source tests JavaScript falsiness of `table[name]`); otherwise it returns
the mapped namespace, which the calling `resolveTypeNames` case writes
onto the `namespace` field of the `TypeIdentifier` being resolved. -/
theorem c5_resolve_name_lookup :
    (∀ (name : String) (table : Table),
      resolveName name table = .error (.nameNotFound name)
        ↔ (tableGet table name = none ∨ tableGet table name = some ""))
    ∧ (∀ (name : String) (table : Table) (ns : String),
        tableGet table name = some ns → ns ≠ "" →
        resolveName name table = .ok ns)
    ∧ (∀ (ty : TypeIdentifier) (table : Table) (ns : String),
        resolveName ty.name table = .ok ns →
        resolveTypeNames (.decoratorTypeReference ty) table
          = .ok (.decoratorTypeReference { ty with ns := some ns })) := by
  refine ⟨fun name table => ?_, fun name table ns hg hns => ?_,
    fun ty table ns h => ?_⟩
  · unfold resolveName
    cases hg : tableGet table name with
    | none => simp
    | some ns => by_cases hns : ns = "" <;> simp [hns]
  · simp [resolveName, hg, hns]
  · simp [resolveTypeNames, h]

/-- Closed instance of `c5_resolve_name_lookup` with its hypotheses
discharged at a concrete table. -/
theorem c5_resolve_name_lookup_witness :
    resolveName "A" [("A", "x")] = .ok "x"
    ∧ resolveTypeNames (.decoratorTypeReference ⟨"A", none⟩) [("A", "x")]
        = .ok (.decoratorTypeReference ⟨"A", some "x"⟩) :=
  ⟨c5_resolve_name_lookup.2.1 "A" [("A", "x")] "x" rfl (by decide),
   c5_resolve_name_lookup.2.2 ⟨"A", none⟩ [("A", "x")] "x" rfl⟩

/-! ## Store lemmas for the frame property (C7) -/

theorem getD_set_ne {α : Type} :
    ∀ (l : List α) (i j : Nat) (v d : α), i ≠ j →
      (l.set i v).getD j d = l.getD j d
  | [], _, _, _, _, _ => rfl
  | a :: l, 0, 0, v, d, h => absurd rfl h
  | a :: l, 0, j + 1, v, d, h => rfl
  | a :: l, i + 1, 0, v, d, h => rfl
  | a :: l, i + 1, j + 1, v, d, h =>
    getD_set_ne l i j v d (fun he => h (by rw [he]))

theorem readTI_append {s ext : Store} {r : Nat} (h : r < s.length) :
    readTI (s ++ ext) r = readTI s r :=
  List.getD_append s ext defaultTI r h

theorem copyOptRef_store (s : Store) (o : Option Nat) :
    ∃ ext, (copyOptRef s o).1 = s ++ ext := by
  cases o with
  | none => exact ⟨[], (List.append_nil s).symm⟩
  | some r => exact ⟨[readTI s r], rfl⟩

theorem copyOptRef_fresh (s : Store) (o : Option Nat) :
    ∀ r2 ∈ optRefList (copyOptRef s o).2, s.length ≤ r2 := by
  cases o with
  | none => intro r2 hm; exact absurd hm (List.not_mem_nil _)
  | some r =>
    intro r2 hm
    rw [List.mem_singleton.mp hm]
    exact Nat.le_refl _

mutual

theorem copyNodeS_store (n : NodeS) (s : Store) :
    ∃ ext, (copyNodeS s n).1 = s ++ ext := by
  cases n with
  | model ns imports declarations => exact copyOptS_store declarations s
  | assetDecl name superType properties decorators =>
    obtain ⟨e1, h1⟩ := copyOptRef_store s superType
    obtain ⟨e2, h2⟩ := copyListS_store properties (copyOptRef s superType).1
    obtain ⟨e3, h3⟩ := copyOptS_store decorators
      (copyListS (copyOptRef s superType).1 properties).1
    exact ⟨e1 ++ e2 ++ e3, by
      show (copyOptS (copyListS (copyOptRef s superType).1 properties).1
        decorators).1 = _
      rw [h3, h2, h1]; simp [List.append_assoc]⟩
  | conceptDecl name superType properties decorators =>
    obtain ⟨e1, h1⟩ := copyOptRef_store s superType
    obtain ⟨e2, h2⟩ := copyListS_store properties (copyOptRef s superType).1
    obtain ⟨e3, h3⟩ := copyOptS_store decorators
      (copyListS (copyOptRef s superType).1 properties).1
    exact ⟨e1 ++ e2 ++ e3, by
      show (copyOptS (copyListS (copyOptRef s superType).1 properties).1
        decorators).1 = _
      rw [h3, h2, h1]; simp [List.append_assoc]⟩
  | eventDecl name superType properties decorators =>
    obtain ⟨e1, h1⟩ := copyOptRef_store s superType
    obtain ⟨e2, h2⟩ := copyListS_store properties (copyOptRef s superType).1
    obtain ⟨e3, h3⟩ := copyOptS_store decorators
      (copyListS (copyOptRef s superType).1 properties).1
    exact ⟨e1 ++ e2 ++ e3, by
      show (copyOptS (copyListS (copyOptRef s superType).1 properties).1
        decorators).1 = _
      rw [h3, h2, h1]; simp [List.append_assoc]⟩
  | transactionDecl name superType properties decorators =>
    obtain ⟨e1, h1⟩ := copyOptRef_store s superType
    obtain ⟨e2, h2⟩ := copyListS_store properties (copyOptRef s superType).1
    obtain ⟨e3, h3⟩ := copyOptS_store decorators
      (copyListS (copyOptRef s superType).1 properties).1
    exact ⟨e1 ++ e2 ++ e3, by
      show (copyOptS (copyListS (copyOptRef s superType).1 properties).1
        decorators).1 = _
      rw [h3, h2, h1]; simp [List.append_assoc]⟩
  | participantDecl name superType properties decorators =>
    obtain ⟨e1, h1⟩ := copyOptRef_store s superType
    obtain ⟨e2, h2⟩ := copyListS_store properties (copyOptRef s superType).1
    obtain ⟨e3, h3⟩ := copyOptS_store decorators
      (copyListS (copyOptRef s superType).1 properties).1
    exact ⟨e1 ++ e2 ++ e3, by
      show (copyOptS (copyListS (copyOptRef s superType).1 properties).1
        decorators).1 = _
      rw [h3, h2, h1]; simp [List.append_assoc]⟩
  | enumDecl name properties decorators =>
    obtain ⟨e2, h2⟩ := copyListS_store properties s
    obtain ⟨e3, h3⟩ := copyOptS_store decorators (copyListS s properties).1
    exact ⟨e2 ++ e3, by
      show (copyOptS (copyListS s properties).1 decorators).1 = _
      rw [h3, h2]; simp [List.append_assoc]⟩
  | enumProperty name decorators => exact copyOptS_store decorators s
  | objectProperty name r decorators =>
    obtain ⟨e2, h2⟩ := copyOptS_store decorators (copyRef s r).1
    exact ⟨[readTI s r] ++ e2, by
      show (copyOptS (copyRef s r).1 decorators).1 = _
      rw [h2]
      show s ++ [readTI s r] ++ e2 = _
      simp [List.append_assoc]⟩
  | relationshipProperty name r decorators =>
    obtain ⟨e2, h2⟩ := copyOptS_store decorators (copyRef s r).1
    exact ⟨[readTI s r] ++ e2, by
      show (copyOptS (copyRef s r).1 decorators).1 = _
      rw [h2]
      show s ++ [readTI s r] ++ e2 = _
      simp [List.append_assoc]⟩
  | booleanProperty name decorators => exact copyOptS_store decorators s
  | dateTimeProperty name decorators => exact copyOptS_store decorators s
  | stringProperty name decorators => exact copyOptS_store decorators s
  | doubleProperty name decorators => exact copyOptS_store decorators s
  | integerProperty name decorators => exact copyOptS_store decorators s
  | longProperty name decorators => exact copyOptS_store decorators s
  | decorator name arguments => exact copyOptS_store arguments s
  | decoratorString value => exact ⟨[], (List.append_nil s).symm⟩
  | decoratorNumber => exact ⟨[], (List.append_nil s).symm⟩
  | decoratorBoolean value => exact ⟨[], (List.append_nil s).symm⟩
  | decoratorTypeReference r => exact ⟨[readTI s r], rfl⟩
termination_by sizeOf n

theorem copyListS_store (l : List NodeS) (s : Store) :
    ∃ ext, (copyListS s l).1 = s ++ ext := by
  cases l with
  | nil => exact ⟨[], (List.append_nil s).symm⟩
  | cons d ds =>
    obtain ⟨e1, h1⟩ := copyNodeS_store d s
    obtain ⟨e2, h2⟩ := copyListS_store ds (copyNodeS s d).1
    exact ⟨e1 ++ e2, by
      show (copyListS (copyNodeS s d).1 ds).1 = _
      rw [h2, h1]; simp [List.append_assoc]⟩
termination_by sizeOf l

theorem copyOptS_store (o : Option (List NodeS)) (s : Store) :
    ∃ ext, (copyOptS s o).1 = s ++ ext := by
  cases o with
  | none => exact ⟨[], (List.append_nil s).symm⟩
  | some ds => exact copyListS_store ds s
termination_by sizeOf o

end

theorem copyNodeS_store_le (n : NodeS) (s : Store) :
    s.length ≤ (copyNodeS s n).1.length := by
  obtain ⟨e, he⟩ := copyNodeS_store n s
  rw [he, List.length_append]
  exact Nat.le_add_right _ _

theorem copyListS_store_le (l : List NodeS) (s : Store) :
    s.length ≤ (copyListS s l).1.length := by
  obtain ⟨e, he⟩ := copyListS_store l s
  rw [he, List.length_append]
  exact Nat.le_add_right _ _

theorem copyOptS_store_le (o : Option (List NodeS)) (s : Store) :
    s.length ≤ (copyOptS s o).1.length := by
  obtain ⟨e, he⟩ := copyOptS_store o s
  rw [he, List.length_append]
  exact Nat.le_add_right _ _

theorem copyOptRef_store_le (s : Store) (o : Option Nat) :
    s.length ≤ (copyOptRef s o).1.length := by
  obtain ⟨e, he⟩ := copyOptRef_store s o
  rw [he, List.length_append]
  exact Nat.le_add_right _ _

mutual

theorem copyNodeS_fresh (n : NodeS) (s : Store) :
    ∀ r ∈ refsOfS (copyNodeS s n).2, s.length ≤ r := by
  cases n with
  | model ns imports declarations => exact copyOptS_fresh declarations s
  | assetDecl name superType properties decorators =>
    intro r hr
    have hr2 : r ∈ optRefList (copyOptRef s superType).2
        ++ refsOfListS (copyListS (copyOptRef s superType).1 properties).2
        ++ refsOfOptS (copyOptS
            (copyListS (copyOptRef s superType).1 properties).1
            decorators).2 := hr
    rcases List.mem_append.mp hr2 with hm | hm
    · rcases List.mem_append.mp hm with hm2 | hm2
      · exact copyOptRef_fresh s superType r hm2
      · exact le_trans (copyOptRef_store_le s superType)
          (copyListS_fresh properties (copyOptRef s superType).1 r hm2)
    · exact le_trans (copyOptRef_store_le s superType)
        (le_trans (copyListS_store_le properties (copyOptRef s superType).1)
          (copyOptS_fresh decorators
            (copyListS (copyOptRef s superType).1 properties).1 r hm))
  | conceptDecl name superType properties decorators =>
    intro r hr
    have hr2 : r ∈ optRefList (copyOptRef s superType).2
        ++ refsOfListS (copyListS (copyOptRef s superType).1 properties).2
        ++ refsOfOptS (copyOptS
            (copyListS (copyOptRef s superType).1 properties).1
            decorators).2 := hr
    rcases List.mem_append.mp hr2 with hm | hm
    · rcases List.mem_append.mp hm with hm2 | hm2
      · exact copyOptRef_fresh s superType r hm2
      · exact le_trans (copyOptRef_store_le s superType)
          (copyListS_fresh properties (copyOptRef s superType).1 r hm2)
    · exact le_trans (copyOptRef_store_le s superType)
        (le_trans (copyListS_store_le properties (copyOptRef s superType).1)
          (copyOptS_fresh decorators
            (copyListS (copyOptRef s superType).1 properties).1 r hm))
  | eventDecl name superType properties decorators =>
    intro r hr
    have hr2 : r ∈ optRefList (copyOptRef s superType).2
        ++ refsOfListS (copyListS (copyOptRef s superType).1 properties).2
        ++ refsOfOptS (copyOptS
            (copyListS (copyOptRef s superType).1 properties).1
            decorators).2 := hr
    rcases List.mem_append.mp hr2 with hm | hm
    · rcases List.mem_append.mp hm with hm2 | hm2
      · exact copyOptRef_fresh s superType r hm2
      · exact le_trans (copyOptRef_store_le s superType)
          (copyListS_fresh properties (copyOptRef s superType).1 r hm2)
    · exact le_trans (copyOptRef_store_le s superType)
        (le_trans (copyListS_store_le properties (copyOptRef s superType).1)
          (copyOptS_fresh decorators
            (copyListS (copyOptRef s superType).1 properties).1 r hm))
  | transactionDecl name superType properties decorators =>
    intro r hr
    have hr2 : r ∈ optRefList (copyOptRef s superType).2
        ++ refsOfListS (copyListS (copyOptRef s superType).1 properties).2
        ++ refsOfOptS (copyOptS
            (copyListS (copyOptRef s superType).1 properties).1
            decorators).2 := hr
    rcases List.mem_append.mp hr2 with hm | hm
    · rcases List.mem_append.mp hm with hm2 | hm2
      · exact copyOptRef_fresh s superType r hm2
      · exact le_trans (copyOptRef_store_le s superType)
          (copyListS_fresh properties (copyOptRef s superType).1 r hm2)
    · exact le_trans (copyOptRef_store_le s superType)
        (le_trans (copyListS_store_le properties (copyOptRef s superType).1)
          (copyOptS_fresh decorators
            (copyListS (copyOptRef s superType).1 properties).1 r hm))
  | participantDecl name superType properties decorators =>
    intro r hr
    have hr2 : r ∈ optRefList (copyOptRef s superType).2
        ++ refsOfListS (copyListS (copyOptRef s superType).1 properties).2
        ++ refsOfOptS (copyOptS
            (copyListS (copyOptRef s superType).1 properties).1
            decorators).2 := hr
    rcases List.mem_append.mp hr2 with hm | hm
    · rcases List.mem_append.mp hm with hm2 | hm2
      · exact copyOptRef_fresh s superType r hm2
      · exact le_trans (copyOptRef_store_le s superType)
          (copyListS_fresh properties (copyOptRef s superType).1 r hm2)
    · exact le_trans (copyOptRef_store_le s superType)
        (le_trans (copyListS_store_le properties (copyOptRef s superType).1)
          (copyOptS_fresh decorators
            (copyListS (copyOptRef s superType).1 properties).1 r hm))
  | enumDecl name properties decorators =>
    intro r hr
    have hr2 : r ∈ refsOfListS (copyListS s properties).2
        ++ refsOfOptS (copyOptS (copyListS s properties).1 decorators).2 := hr
    rcases List.mem_append.mp hr2 with hm | hm
    · exact copyListS_fresh properties s r hm
    · exact le_trans (copyListS_store_le properties s)
        (copyOptS_fresh decorators (copyListS s properties).1 r hm)
  | enumProperty name decorators => exact copyOptS_fresh decorators s
  | objectProperty name r0 decorators =>
    intro r hr
    have hr2 : r ∈ s.length
        :: refsOfOptS (copyOptS (copyRef s r0).1 decorators).2 := hr
    rcases List.mem_cons.mp hr2 with hm | hm
    · rw [hm]
    · have hle : s.length ≤ (copyRef s r0).1.length := by
        show s.length ≤ (s ++ [readTI s r0]).length
        rw [List.length_append]
        exact Nat.le_add_right _ _
      exact le_trans hle (copyOptS_fresh decorators (copyRef s r0).1 r hm)
  | relationshipProperty name r0 decorators =>
    intro r hr
    have hr2 : r ∈ s.length
        :: refsOfOptS (copyOptS (copyRef s r0).1 decorators).2 := hr
    rcases List.mem_cons.mp hr2 with hm | hm
    · rw [hm]
    · have hle : s.length ≤ (copyRef s r0).1.length := by
        show s.length ≤ (s ++ [readTI s r0]).length
        rw [List.length_append]
        exact Nat.le_add_right _ _
      exact le_trans hle (copyOptS_fresh decorators (copyRef s r0).1 r hm)
  | booleanProperty name decorators => exact copyOptS_fresh decorators s
  | dateTimeProperty name decorators => exact copyOptS_fresh decorators s
  | stringProperty name decorators => exact copyOptS_fresh decorators s
  | doubleProperty name decorators => exact copyOptS_fresh decorators s
  | integerProperty name decorators => exact copyOptS_fresh decorators s
  | longProperty name decorators => exact copyOptS_fresh decorators s
  | decorator name arguments => exact copyOptS_fresh arguments s
  | decoratorString value =>
    intro r hr; exact absurd hr (List.not_mem_nil _)
  | decoratorNumber => intro r hr; exact absurd hr (List.not_mem_nil _)
  | decoratorBoolean value =>
    intro r hr; exact absurd hr (List.not_mem_nil _)
  | decoratorTypeReference r0 =>
    intro r hr
    have hr2 : r ∈ [s.length] := hr
    rw [List.mem_singleton.mp hr2]
termination_by sizeOf n

theorem copyListS_fresh (l : List NodeS) (s : Store) :
    ∀ r ∈ refsOfListS (copyListS s l).2, s.length ≤ r := by
  cases l with
  | nil => intro r hr; exact absurd hr (List.not_mem_nil _)
  | cons d ds =>
    intro r hr
    have hr2 : r ∈ refsOfS (copyNodeS s d).2
        ++ refsOfListS (copyListS (copyNodeS s d).1 ds).2 := hr
    rcases List.mem_append.mp hr2 with hm | hm
    · exact copyNodeS_fresh d s r hm
    · exact le_trans (copyNodeS_store_le d s)
        (copyListS_fresh ds (copyNodeS s d).1 r hm)
termination_by sizeOf l

theorem copyOptS_fresh (o : Option (List NodeS)) (s : Store) :
    ∀ r ∈ refsOfOptS (copyOptS s o).2, s.length ≤ r := by
  cases o with
  | none => intro r hr; exact absurd hr (List.not_mem_nil _)
  | some ds => exact copyListS_fresh ds s
termination_by sizeOf o

end

theorem writeRefS_frame {table : Table} {s : Store} {r : Nat} {s2 : Store}
    (h : writeRefS table s r = .ok s2) :
    s2.length = s.length ∧ ∀ r2, r2 ≠ r → readTI s2 r2 = readTI s r2 := by
  obtain ⟨ns, hns, heq⟩ := map_ok_inv h
  subst heq
  refine ⟨List.length_set _ _ _, fun r2 hne => ?_⟩
  exact getD_set_ne s r r2 _ defaultTI (fun he => hne he.symm)

theorem resolveSuperRefS_frame {table : Table} {s : Store}
    {o : Option Nat} {s2 : Store}
    (h : resolveSuperRefS table s o = .ok s2) :
    s2.length = s.length
    ∧ ∀ r2, r2 ∉ optRefList o → readTI s2 r2 = readTI s r2 := by
  cases o with
  | none =>
    injection h with h
    subst h
    exact ⟨rfl, fun _ _ => rfl⟩
  | some r =>
    obtain ⟨hlen, hread⟩ := writeRefS_frame h
    exact ⟨hlen, fun r2 hm =>
      hread r2 (fun he => hm (he ▸ List.Mem.head _))⟩

mutual

theorem resolveTypeNamesS_frame (n : NodeS) (table : Table) (s s2 : Store)
    (h : resolveTypeNamesS table s n = .ok s2) :
    s2.length = s.length
    ∧ ∀ r, r ∉ refsOfS n → readTI s2 r = readTI s r := by
  cases n with
  | model ns imports declarations =>
    exact resolveOptS_frame declarations table s s2 h
  | assetDecl name superType properties decorators =>
    obtain ⟨sa, hsa, h⟩ := bind_ok_inv h
    obtain ⟨sb, hsb, h⟩ := bind_ok_inv h
    obtain ⟨l1, f1⟩ := resolveSuperRefS_frame hsa
    obtain ⟨l2, f2⟩ := resolveListS_frame properties table sa sb hsb
    obtain ⟨l3, f3⟩ := resolveOptS_frame decorators table sb s2 h
    refine ⟨l3.trans (l2.trans l1), fun r hr => ?_⟩
    have hr2 : r ∉ optRefList superType ++ refsOfListS properties
        ++ refsOfOptS decorators := hr
    have hra : r ∉ optRefList superType :=
      fun hm => hr2 (List.mem_append_left _ (List.mem_append_left _ hm))
    have hrb : r ∉ refsOfListS properties :=
      fun hm => hr2 (List.mem_append_left _ (List.mem_append_right _ hm))
    have hrc : r ∉ refsOfOptS decorators :=
      fun hm => hr2 (List.mem_append_right _ hm)
    rw [f3 r hrc, f2 r hrb, f1 r hra]
  | conceptDecl name superType properties decorators =>
    obtain ⟨sa, hsa, h⟩ := bind_ok_inv h
    obtain ⟨sb, hsb, h⟩ := bind_ok_inv h
    obtain ⟨l1, f1⟩ := resolveSuperRefS_frame hsa
    obtain ⟨l2, f2⟩ := resolveListS_frame properties table sa sb hsb
    obtain ⟨l3, f3⟩ := resolveOptS_frame decorators table sb s2 h
    refine ⟨l3.trans (l2.trans l1), fun r hr => ?_⟩
    have hr2 : r ∉ optRefList superType ++ refsOfListS properties
        ++ refsOfOptS decorators := hr
    have hra : r ∉ optRefList superType :=
      fun hm => hr2 (List.mem_append_left _ (List.mem_append_left _ hm))
    have hrb : r ∉ refsOfListS properties :=
      fun hm => hr2 (List.mem_append_left _ (List.mem_append_right _ hm))
    have hrc : r ∉ refsOfOptS decorators :=
      fun hm => hr2 (List.mem_append_right _ hm)
    rw [f3 r hrc, f2 r hrb, f1 r hra]
  | eventDecl name superType properties decorators =>
    obtain ⟨sa, hsa, h⟩ := bind_ok_inv h
    obtain ⟨sb, hsb, h⟩ := bind_ok_inv h
    obtain ⟨l1, f1⟩ := resolveSuperRefS_frame hsa
    obtain ⟨l2, f2⟩ := resolveListS_frame properties table sa sb hsb
    obtain ⟨l3, f3⟩ := resolveOptS_frame decorators table sb s2 h
    refine ⟨l3.trans (l2.trans l1), fun r hr => ?_⟩
    have hr2 : r ∉ optRefList superType ++ refsOfListS properties
        ++ refsOfOptS decorators := hr
    have hra : r ∉ optRefList superType :=
      fun hm => hr2 (List.mem_append_left _ (List.mem_append_left _ hm))
    have hrb : r ∉ refsOfListS properties :=
      fun hm => hr2 (List.mem_append_left _ (List.mem_append_right _ hm))
    have hrc : r ∉ refsOfOptS decorators :=
      fun hm => hr2 (List.mem_append_right _ hm)
    rw [f3 r hrc, f2 r hrb, f1 r hra]
  | transactionDecl name superType properties decorators =>
    obtain ⟨sa, hsa, h⟩ := bind_ok_inv h
    obtain ⟨sb, hsb, h⟩ := bind_ok_inv h
    obtain ⟨l1, f1⟩ := resolveSuperRefS_frame hsa
    obtain ⟨l2, f2⟩ := resolveListS_frame properties table sa sb hsb
    obtain ⟨l3, f3⟩ := resolveOptS_frame decorators table sb s2 h
    refine ⟨l3.trans (l2.trans l1), fun r hr => ?_⟩
    have hr2 : r ∉ optRefList superType ++ refsOfListS properties
        ++ refsOfOptS decorators := hr
    have hra : r ∉ optRefList superType :=
      fun hm => hr2 (List.mem_append_left _ (List.mem_append_left _ hm))
    have hrb : r ∉ refsOfListS properties :=
      fun hm => hr2 (List.mem_append_left _ (List.mem_append_right _ hm))
    have hrc : r ∉ refsOfOptS decorators :=
      fun hm => hr2 (List.mem_append_right _ hm)
    rw [f3 r hrc, f2 r hrb, f1 r hra]
  | participantDecl name superType properties decorators =>
    obtain ⟨sa, hsa, h⟩ := bind_ok_inv h
    obtain ⟨sb, hsb, h⟩ := bind_ok_inv h
    obtain ⟨l1, f1⟩ := resolveSuperRefS_frame hsa
    obtain ⟨l2, f2⟩ := resolveListS_frame properties table sa sb hsb
    obtain ⟨l3, f3⟩ := resolveOptS_frame decorators table sb s2 h
    refine ⟨l3.trans (l2.trans l1), fun r hr => ?_⟩
    have hr2 : r ∉ optRefList superType ++ refsOfListS properties
        ++ refsOfOptS decorators := hr
    have hra : r ∉ optRefList superType :=
      fun hm => hr2 (List.mem_append_left _ (List.mem_append_left _ hm))
    have hrb : r ∉ refsOfListS properties :=
      fun hm => hr2 (List.mem_append_left _ (List.mem_append_right _ hm))
    have hrc : r ∉ refsOfOptS decorators :=
      fun hm => hr2 (List.mem_append_right _ hm)
    rw [f3 r hrc, f2 r hrb, f1 r hra]
  | enumDecl name properties decorators =>
    obtain ⟨l3, f3⟩ := resolveOptS_frame decorators table s s2 h
    refine ⟨l3, fun r hr => ?_⟩
    have hr2 : r ∉ refsOfListS properties ++ refsOfOptS decorators := hr
    exact f3 r (fun hm => hr2 (List.mem_append_right _ hm))
  | enumProperty name decorators => exact Except.noConfusion h
  | objectProperty name r0 decorators =>
    obtain ⟨sa, hsa, h⟩ := bind_ok_inv h
    obtain ⟨l1, f1⟩ := writeRefS_frame hsa
    obtain ⟨l3, f3⟩ := resolveOptS_frame decorators table sa s2 h
    refine ⟨l3.trans l1, fun r hr => ?_⟩
    have hr2 : r ∉ r0 :: refsOfOptS decorators := hr
    have hra : r ≠ r0 := fun he => hr2 (he ▸ List.Mem.head _)
    have hrc : r ∉ refsOfOptS decorators :=
      fun hm => hr2 (List.Mem.tail _ hm)
    rw [f3 r hrc, f1 r hra]
  | relationshipProperty name r0 decorators =>
    obtain ⟨sa, hsa, h⟩ := bind_ok_inv h
    obtain ⟨l1, f1⟩ := writeRefS_frame hsa
    obtain ⟨l3, f3⟩ := resolveOptS_frame decorators table sa s2 h
    refine ⟨l3.trans l1, fun r hr => ?_⟩
    have hr2 : r ∉ r0 :: refsOfOptS decorators := hr
    have hra : r ≠ r0 := fun he => hr2 (he ▸ List.Mem.head _)
    have hrc : r ∉ refsOfOptS decorators :=
      fun hm => hr2 (List.Mem.tail _ hm)
    rw [f3 r hrc, f1 r hra]
  | booleanProperty name decorators =>
    injection h with h; subst h; exact ⟨rfl, fun _ _ => rfl⟩
  | dateTimeProperty name decorators =>
    injection h with h; subst h; exact ⟨rfl, fun _ _ => rfl⟩
  | stringProperty name decorators =>
    injection h with h; subst h; exact ⟨rfl, fun _ _ => rfl⟩
  | doubleProperty name decorators =>
    injection h with h; subst h; exact ⟨rfl, fun _ _ => rfl⟩
  | integerProperty name decorators =>
    injection h with h; subst h; exact ⟨rfl, fun _ _ => rfl⟩
  | longProperty name decorators =>
    injection h with h; subst h; exact ⟨rfl, fun _ _ => rfl⟩
  | decorator name arguments =>
    exact resolveOptS_frame arguments table s s2 h
  | decoratorString value =>
    injection h with h; subst h; exact ⟨rfl, fun _ _ => rfl⟩
  | decoratorNumber =>
    injection h with h; subst h; exact ⟨rfl, fun _ _ => rfl⟩
  | decoratorBoolean value =>
    injection h with h; subst h; exact ⟨rfl, fun _ _ => rfl⟩
  | decoratorTypeReference r0 =>
    obtain ⟨l1, f1⟩ := writeRefS_frame h
    refine ⟨l1, fun r hr => ?_⟩
    have hr2 : r ∉ [r0] := hr
    exact f1 r (fun he => hr2 (he ▸ List.Mem.head _))
termination_by sizeOf n

theorem resolveListS_frame (l : List NodeS) (table : Table) (s s2 : Store)
    (h : resolveListS table s l = .ok s2) :
    s2.length = s.length
    ∧ ∀ r, r ∉ refsOfListS l → readTI s2 r = readTI s r := by
  cases l with
  | nil =>
    injection h with h; subst h; exact ⟨rfl, fun _ _ => rfl⟩
  | cons d ds =>
    obtain ⟨sa, hsa, h⟩ := bind_ok_inv h
    obtain ⟨l1, f1⟩ := resolveTypeNamesS_frame d table s sa hsa
    obtain ⟨l2, f2⟩ := resolveListS_frame ds table sa s2 h
    refine ⟨l2.trans l1, fun r hr => ?_⟩
    have hr2 : r ∉ refsOfS d ++ refsOfListS ds := hr
    rw [f2 r (fun hm => hr2 (List.mem_append_right _ hm)),
      f1 r (fun hm => hr2 (List.mem_append_left _ hm))]
termination_by sizeOf l

theorem resolveOptS_frame (o : Option (List NodeS)) (table : Table)
    (s s2 : Store) (h : resolveOptS table s o = .ok s2) :
    s2.length = s.length
    ∧ ∀ r, r ∉ refsOfOptS o → readTI s2 r = readTI s r := by
  cases o with
  | none => injection h with h; subst h; exact ⟨rfl, fun _ _ => rfl⟩
  | some ds => exact resolveListS_frame ds table s s2 h
termination_by sizeOf o

end

/-- Resolving the *copy* of a tree leaves every cell of the original
store segment (indices below `s.length`) untouched, and all the copy's
references sit above that segment. -/
theorem resolveAtCopy_frame (table : Table) (sp : Store) (mp : NodeS)
    (s : Store) (s2 : Store)
    (hsp : ∃ ext, sp = s ++ ext)
    (hres : resolveTypeNamesS table (copyNodeS sp mp).1
        (copyNodeS sp mp).2 = .ok s2) :
    (∀ r, r < s.length → readTI s2 r = readTI s r)
    ∧ ∀ r ∈ refsOfS (copyNodeS sp mp).2, s.length ≤ r := by
  obtain ⟨ext0, hext0⟩ := hsp
  obtain ⟨ext1, hext1⟩ := copyNodeS_store mp sp
  have hfresh := copyNodeS_fresh mp sp
  have hframe := resolveTypeNamesS_frame (copyNodeS sp mp).2 table
    (copyNodeS sp mp).1 s2 hres
  have hsl : s.length ≤ sp.length := by
    rw [hext0, List.length_append]
    exact Nat.le_add_right _ _
  constructor
  · intro r hrlt
    have hnot : r ∉ refsOfS (copyNodeS sp mp).2 := fun hm => by
      have := hfresh r hm
      omega
    rw [hframe.2 r hnot, hext1, readTI_append (lt_of_lt_of_le hrlt hsl),
      hext0, readTI_append hrlt]
  · intro r hm
    exact le_trans hsl (hfresh r hm)

/-- **C7.** For every `(registry, model)` pair on a well-formed state
(all of the model's cell references in bounds) and either value of the
`validate` flag, a successful `resolveMetaModel` leaves every
`TypeIdentifier` cell of the `metaModel` argument exactly as it was — the
resolved namespaces are written only into the cells of the returned
`result`, which was built by a deep copy (fresh cells) before any
`namespace` was written, and which shares no cell with the argument.
(The tree spine is immutable data in this embedding, so all remaining
fields of the argument are unchanged by construction.) -/
theorem c7_resolve_meta_model_pure (reg : Registry) (s : Store)
    (metaModel : NodeS) (validate : Bool) (s2 : Store) (result : NodeS)
    (hwf : ∀ r ∈ refsOfS metaModel, r < s.length)
    (h : resolveMetaModelS reg s metaModel validate = .ok (s2, result)) :
    (∀ r ∈ refsOfS metaModel, readTI s2 r = readTI s r)
    ∧ ∀ r ∈ refsOfS result, r ∉ refsOfS metaModel := by
  cases validate with
  | false =>
    have h2 : (createNameTableS reg metaModel >>= fun table =>
        resolveTypeNamesS table (copyNodeS s metaModel).1
          (copyNodeS s metaModel).2 >>= fun s3 =>
        Except.ok (s3, (copyNodeS s metaModel).2)) = .ok (s2, result) := h
    obtain ⟨table, htab, h2⟩ := bind_ok_inv h2
    obtain ⟨s3, hres, h2⟩ := bind_ok_inv h2
    injection h2 with h2
    injection h2 with ha hb
    subst ha
    subst hb
    have hf := resolveAtCopy_frame table s metaModel s s3
      ⟨[], (List.append_nil s).symm⟩ hres
    constructor
    · intro r hr
      exact hf.1 r (hwf r hr)
    · intro r hr hrm
      have hge := hf.2 r hr
      have hlt := hwf r hrm
      omega
  | true =>
    have h2 : (createNameTableS reg (copyNodeS s metaModel).2 >>=
        fun table =>
        resolveTypeNamesS table
          (copyNodeS (copyNodeS s metaModel).1 (copyNodeS s metaModel).2).1
          (copyNodeS (copyNodeS s metaModel).1 (copyNodeS s metaModel).2).2
          >>= fun s3 =>
        Except.ok (s3,
          (copyNodeS (copyNodeS s metaModel).1
            (copyNodeS s metaModel).2).2)) = .ok (s2, result) := h
    obtain ⟨table, htab, h2⟩ := bind_ok_inv h2
    obtain ⟨s3, hres, h2⟩ := bind_ok_inv h2
    injection h2 with h2
    injection h2 with ha hb
    subst ha
    subst hb
    have hf := resolveAtCopy_frame table (copyNodeS s metaModel).1
      (copyNodeS s metaModel).2 s s3 (copyNodeS_store metaModel s) hres
    constructor
    · intro r hr
      exact hf.1 r (hwf r hr)
    · intro r hr hrm
      have hge := hf.2 r hr
      have hlt := hwf r hrm
      omega

/-- Closed instance of `c7_resolve_meta_model_pure`: the argument's only
cell (holding `Concept`, namespace still unresolved) is untouched, while
the returned copy's cell received the namespace. -/
theorem c7_resolve_meta_model_pure_witness :
    resolveMetaModelS [] [⟨"Concept", none⟩]
        (.model "m" (some []) (some [.conceptDecl "C" (some 0) [] none]))
        true
      = .ok ([⟨"Concept", none⟩, ⟨"Concept", none⟩,
          ⟨"Concept", some "concerto"⟩],
          .model "m" (some [])
            (some [.conceptDecl "C" (some 2) [] none]))
    ∧ readTI [⟨"Concept", none⟩, ⟨"Concept", none⟩,
        ⟨"Concept", some "concerto"⟩] 0 = readTI [⟨"Concept", none⟩] 0 :=
  ⟨rfl,
   (c7_resolve_meta_model_pure [] [⟨"Concept", none⟩]
      (.model "m" (some []) (some [.conceptDecl "C" (some 0) [] none]))
      true
      [⟨"Concept", none⟩, ⟨"Concept", none⟩, ⟨"Concept", some "concerto"⟩]
      (.model "m" (some []) (some [.conceptDecl "C" (some 2) [] none]))
      (by decide) rfl).1 0 (by decide)⟩

/-! ## C3: write order settles ties; locals always win -/

/-- **C3.** Ties in the name table are settled purely by write order.
First conjunct: for imports `[ImportAll ns1, ImportType ns2 "Foo"]` where
`ns1` also declares `Foo`, the later import silently overwrites the
earlier binding (no ambiguity error) and the built table maps
`Foo -> ns2` — unless a local declaration is also named `Foo`, and every
local declaration is unconditionally bound to the model's own namespace.
Second conjunct: local shadowing holds for *any* import list that builds
successfully. -/
theorem c3_override_order_and_local_shadowing
    (reg : Registry) (mf1 mf2 : ModelFile) (ns1 ns2 mns : String)
    (ds : List Node)
    (h1 : getModelFile reg ns1 = some mf1)
    (h2 : getModelFile reg ns2 = some mf2)
    (hfoo1 : "Foo" ∈ mf1.declarationNames)
    (hfoo2 : "Foo" ∈ mf2.declarationNames) :
    (∃ t, createNameTable reg
        (.model mns (some [.importAll ns1, .importType ns2 "Foo"])
          (some ds)) = .ok t
      ∧ ("Foo" ∉ ds.map Node.getName → tableGet t "Foo" = some ns2)
      ∧ ∀ d ∈ ds, tableGet t d.getName = some mns)
    ∧ (∀ (imps : List Import) (ds2 : List Node) (t : Table),
        createNameTable reg (.model mns (some imps) (some ds2)) = .ok t →
        ∀ d ∈ ds2, tableGet t d.getName = some mns) := by
  constructor
  · have hmain : createNameTable reg
        (.model mns (some [.importAll ns1, .importType ns2 "Foo"])
          (some ds))
        = .ok (ds.foldl (fun t d => tableSet t d.getName mns)
            (tableSet
              (mf1.declarationNames.foldl (fun t d => tableSet t d ns1)
                builtinTable)
              "Foo" ns2)) := by
      simp [createNameTable, Node.importsV, Node.declarationsV,
        Node.namespaceV, List.foldlM_cons, List.foldlM_nil, processImport,
        Import.ns, h1, h2, hfoo2]
    refine ⟨_, hmain, fun hnot => ?_, fun d hd => ?_⟩
    · rw [localsFold_get, if_neg hnot, tableGet_tableSet_self]
    · rw [localsFold_get, if_pos (List.mem_map.mpr ⟨d, hd, rfl⟩)]
  · intro imps ds2 t h
    simp only [createNameTable, Node.importsV, Node.declarationsV,
      Node.namespaceV] at h
    obtain ⟨t0, hfold, hok⟩ := bind_ok_inv h
    injection hok with hok
    intro d hd
    rw [← hok, localsFold_get, if_pos (List.mem_map.mpr ⟨d, hd, rfl⟩)]

/-- Closed instance of `c3_override_order_and_local_shadowing` with all
hypotheses discharged at a concrete registry and model. -/
theorem c3_override_order_witness :
    ∃ t, createNameTable [⟨"NS1", ["Foo"]⟩, ⟨"NS2", ["Foo"]⟩]
        (.model "org.m" (some [.importAll "NS1", .importType "NS2" "Foo"])
          (some [.enumDecl "Bar" [] none])) = .ok t
      ∧ tableGet t "Foo" = some "NS2"
      ∧ tableGet t "Bar" = some "org.m" := by
  obtain ⟨⟨t, hok, hfoo, hloc⟩, -⟩ :=
    c3_override_order_and_local_shadowing
      [⟨"NS1", ["Foo"]⟩, ⟨"NS2", ["Foo"]⟩] ⟨"NS1", ["Foo"]⟩
      ⟨"NS2", ["Foo"]⟩ "NS1" "NS2" "org.m" [.enumDecl "Bar" [] none]
      (by decide) (by decide) (by decide) (by decide)
  exact ⟨t, hok, hfoo (by decide),
    hloc (.enumDecl "Bar" [] none) (List.Mem.head _)⟩

/-! ## C6: ImportType checks the registry; the error carries both names -/

/-- **C6.** During `createNameTable`, an `ImportType` whose named
declaration is not locally declared by its claimed namespace fails with an
error carrying both the missing declaration name and the namespace
queried; on success the binding `table[name] = namespace` is added.  The
registry is only ever queried (`getModelFile`, `getLocalType`,
`getAllDeclarations`), never written: in this embedding it is passed
read-only and no updated registry is ever produced. -/
theorem c6_import_type_registry_check
    (reg : Registry) (mf : ModelFile) (ns name mns : String)
    (h : getModelFile reg ns = some mf) :
    (name ∉ mf.declarationNames →
      createNameTable reg (.model mns (some [.importType ns name]) none)
        = .error (.declNotFound name ns))
    ∧ (name ∈ mf.declarationNames →
      ∃ t, createNameTable reg
          (.model mns (some [.importType ns name]) none) = .ok t
        ∧ tableGet t name = some ns) := by
  constructor
  · intro hmem
    simp [createNameTable, Node.importsV, Node.declarationsV,
      List.foldlM_cons, List.foldlM_nil, processImport, Import.ns, h, hmem]
  · intro hmem
    refine ⟨tableSet builtinTable name ns, ?_, tableGet_tableSet_self _ _ _⟩
    simp [createNameTable, Node.importsV, Node.declarationsV,
      List.foldlM_cons, List.foldlM_nil, processImport, Import.ns, h, hmem]

/-- Closed instance of `c6_import_type_registry_check`, both branches. -/
theorem c6_import_type_witness :
    createNameTable [⟨"NS", ["Foo"]⟩]
        (.model "M" (some [.importType "NS" "Bar"]) none)
      = .error (.declNotFound "Bar" "NS")
    ∧ ∃ t, createNameTable [⟨"NS", ["Foo"]⟩]
          (.model "M" (some [.importType "NS" "Foo"]) none) = .ok t
        ∧ tableGet t "Foo" = some "NS" :=
  ⟨(c6_import_type_registry_check [⟨"NS", ["Foo"]⟩] ⟨"NS", ["Foo"]⟩
      "NS" "Bar" "M" (by decide)).1 (by decide),
   (c6_import_type_registry_check [⟨"NS", ["Foo"]⟩] ⟨"NS", ["Foo"]⟩
      "NS" "Foo" "M" (by decide)).2 (by decide)⟩

/-! ## C8: resolution is idempotent for a fixed table -/

/-- Re-resolving an already-resolved super type writes the same value:
the lookup key (`name`) was not changed by the first pass. -/
theorem resolveSuperType_idem {st st2 : Option TypeIdentifier}
    {table : Table} (h : resolveSuperType st table = .ok st2) :
    resolveSuperType st2 table = .ok st2 := by
  cases st with
  | none =>
    injection h with h
    subst h
    rfl
  | some ty =>
    simp only [resolveSuperType] at h
    obtain ⟨ns, hns, heq⟩ := map_ok_inv h
    subst heq
    show (resolveName ty.name table).map
        (fun ns2 => some (TypeIdentifier.mk ty.name (some ns2)))
      = Except.ok (some (TypeIdentifier.mk ty.name (some ns)))
    rw [hns]
    rfl

mutual

theorem resolveTypeNames_idem (n : Node) (table : Table) (n2 : Node)
    (h : resolveTypeNames n table = .ok n2) :
    resolveTypeNames n2 table = .ok n2 := by
  cases n with
  | model ns imports declarations =>
    cases declarations with
    | none => injection h with h; subst h; rfl
    | some ds =>
      obtain ⟨ds2, hds, heq⟩ := map_ok_inv h
      subst heq
      show (resolveNodeList ds2 table).map
          (fun x => Node.model ns imports (some x))
        = Except.ok (Node.model ns imports (some ds2))
      rw [resolveNodeList_idem ds table ds2 hds]
      rfl
  | assetDecl name superType properties decorators =>
    obtain ⟨st2, hst, h⟩ := bind_ok_inv h
    obtain ⟨props2, hp, h⟩ := bind_ok_inv h
    obtain ⟨decs2, hd, h⟩ := bind_ok_inv h
    injection h with h
    subst h
    show (resolveSuperType st2 table >>= fun a =>
        resolveNodeList props2 table >>= fun b =>
        resolveOptList decs2 table >>= fun c =>
        Except.ok (Node.assetDecl name a b c))
      = Except.ok (Node.assetDecl name st2 props2 decs2)
    rw [resolveSuperType_idem hst,
      resolveNodeList_idem properties table props2 hp,
      resolveOptList_idem decorators table decs2 hd]
    rfl
  | conceptDecl name superType properties decorators =>
    obtain ⟨st2, hst, h⟩ := bind_ok_inv h
    obtain ⟨props2, hp, h⟩ := bind_ok_inv h
    obtain ⟨decs2, hd, h⟩ := bind_ok_inv h
    injection h with h
    subst h
    show (resolveSuperType st2 table >>= fun a =>
        resolveNodeList props2 table >>= fun b =>
        resolveOptList decs2 table >>= fun c =>
        Except.ok (Node.conceptDecl name a b c))
      = Except.ok (Node.conceptDecl name st2 props2 decs2)
    rw [resolveSuperType_idem hst,
      resolveNodeList_idem properties table props2 hp,
      resolveOptList_idem decorators table decs2 hd]
    rfl
  | eventDecl name superType properties decorators =>
    obtain ⟨st2, hst, h⟩ := bind_ok_inv h
    obtain ⟨props2, hp, h⟩ := bind_ok_inv h
    obtain ⟨decs2, hd, h⟩ := bind_ok_inv h
    injection h with h
    subst h
    show (resolveSuperType st2 table >>= fun a =>
        resolveNodeList props2 table >>= fun b =>
        resolveOptList decs2 table >>= fun c =>
        Except.ok (Node.eventDecl name a b c))
      = Except.ok (Node.eventDecl name st2 props2 decs2)
    rw [resolveSuperType_idem hst,
      resolveNodeList_idem properties table props2 hp,
      resolveOptList_idem decorators table decs2 hd]
    rfl
  | transactionDecl name superType properties decorators =>
    obtain ⟨st2, hst, h⟩ := bind_ok_inv h
    obtain ⟨props2, hp, h⟩ := bind_ok_inv h
    obtain ⟨decs2, hd, h⟩ := bind_ok_inv h
    injection h with h
    subst h
    show (resolveSuperType st2 table >>= fun a =>
        resolveNodeList props2 table >>= fun b =>
        resolveOptList decs2 table >>= fun c =>
        Except.ok (Node.transactionDecl name a b c))
      = Except.ok (Node.transactionDecl name st2 props2 decs2)
    rw [resolveSuperType_idem hst,
      resolveNodeList_idem properties table props2 hp,
      resolveOptList_idem decorators table decs2 hd]
    rfl
  | participantDecl name superType properties decorators =>
    obtain ⟨st2, hst, h⟩ := bind_ok_inv h
    obtain ⟨props2, hp, h⟩ := bind_ok_inv h
    obtain ⟨decs2, hd, h⟩ := bind_ok_inv h
    injection h with h
    subst h
    show (resolveSuperType st2 table >>= fun a =>
        resolveNodeList props2 table >>= fun b =>
        resolveOptList decs2 table >>= fun c =>
        Except.ok (Node.participantDecl name a b c))
      = Except.ok (Node.participantDecl name st2 props2 decs2)
    rw [resolveSuperType_idem hst,
      resolveNodeList_idem properties table props2 hp,
      resolveOptList_idem decorators table decs2 hd]
    rfl
  | enumDecl name properties decorators =>
    cases decorators with
    | none => injection h with h; subst h; rfl
    | some ds =>
      obtain ⟨ds2, hds, heq⟩ := map_ok_inv h
      subst heq
      show (resolveNodeList ds2 table).map
          (fun x => Node.enumDecl name properties (some x))
        = Except.ok (Node.enumDecl name properties (some ds2))
      rw [resolveNodeList_idem ds table ds2 hds]
      rfl
  | enumProperty name decorators => exact Except.noConfusion h
  | objectProperty name ty decorators =>
    obtain ⟨ns, hns, h⟩ := bind_ok_inv h
    obtain ⟨decs2, hd, h⟩ := bind_ok_inv h
    injection h with h
    subst h
    show (resolveName ty.name table >>= fun a =>
        resolveOptList decs2 table >>= fun b =>
        Except.ok (Node.objectProperty name (TypeIdentifier.mk ty.name (some a)) b))
      = Except.ok (Node.objectProperty name (TypeIdentifier.mk ty.name (some ns))
          decs2)
    rw [hns, resolveOptList_idem decorators table decs2 hd]
    rfl
  | relationshipProperty name ty decorators =>
    obtain ⟨ns, hns, h⟩ := bind_ok_inv h
    obtain ⟨decs2, hd, h⟩ := bind_ok_inv h
    injection h with h
    subst h
    show (resolveName ty.name table >>= fun a =>
        resolveOptList decs2 table >>= fun b =>
        Except.ok (Node.relationshipProperty name (TypeIdentifier.mk ty.name (some a)) b))
      = Except.ok (Node.relationshipProperty name (TypeIdentifier.mk ty.name (some ns))
          decs2)
    rw [hns, resolveOptList_idem decorators table decs2 hd]
    rfl
  | booleanProperty name decorators => injection h with h; subst h; rfl
  | dateTimeProperty name decorators => injection h with h; subst h; rfl
  | stringProperty name decorators => injection h with h; subst h; rfl
  | doubleProperty name decorators => injection h with h; subst h; rfl
  | integerProperty name decorators => injection h with h; subst h; rfl
  | longProperty name decorators => injection h with h; subst h; rfl
  | decorator name arguments =>
    cases arguments with
    | none => injection h with h; subst h; rfl
    | some args =>
      obtain ⟨args2, hargs, heq⟩ := map_ok_inv h
      subst heq
      show (resolveNodeList args2 table).map
          (fun x => Node.decorator name (some x))
        = Except.ok (Node.decorator name (some args2))
      rw [resolveNodeList_idem args table args2 hargs]
      rfl
  | decoratorString value => injection h with h; subst h; rfl
  | decoratorNumber => injection h with h; subst h; rfl
  | decoratorBoolean value => injection h with h; subst h; rfl
  | decoratorTypeReference ty =>
    obtain ⟨ns, hns, heq⟩ := map_ok_inv h
    subst heq
    show (resolveName ty.name table).map
        (fun a => Node.decoratorTypeReference
          (TypeIdentifier.mk ty.name (some a)))
      = Except.ok (Node.decoratorTypeReference
          (TypeIdentifier.mk ty.name (some ns)))
    rw [hns]
    rfl
termination_by sizeOf n

theorem resolveNodeList_idem (l : List Node) (table : Table)
    (l2 : List Node) (h : resolveNodeList l table = .ok l2) :
    resolveNodeList l2 table = .ok l2 := by
  cases l with
  | nil => injection h with h; subst h; rfl
  | cons d ds =>
    obtain ⟨d2, hd, h⟩ := bind_ok_inv h
    obtain ⟨ds2, hds, h⟩ := bind_ok_inv h
    injection h with h
    subst h
    show (resolveTypeNames d2 table >>= fun a =>
        resolveNodeList ds2 table >>= fun b => Except.ok (a :: b))
      = Except.ok (d2 :: ds2)
    rw [resolveTypeNames_idem d table d2 hd,
      resolveNodeList_idem ds table ds2 hds]
    rfl
termination_by sizeOf l

theorem resolveOptList_idem (o : Option (List Node)) (table : Table)
    (o2 : Option (List Node)) (h : resolveOptList o table = .ok o2) :
    resolveOptList o2 table = .ok o2 := by
  cases o with
  | none => injection h with h; subst h; rfl
  | some ds =>
    obtain ⟨ds2, hds, heq⟩ := map_ok_inv h
    subst heq
    show (resolveNodeList ds2 table).map some = Except.ok (some ds2)
    rw [resolveNodeList_idem ds table ds2 hds]
    rfl
termination_by sizeOf o

end

/-- **C8.** `resolveTypeNames` is idempotent with respect to a fixed name
table: applying it to a tree it has already resolved with the same table
yields that tree back unchanged — every `TypeIdentifier.namespace` it
visits is reassigned the very value the table already produced, because
the lookup key (`name`) was not altered by the first pass. -/
theorem c8_resolve_type_names_idempotent (n : Node) (table : Table)
    (resolved : Node) (h : resolveTypeNames n table = .ok resolved) :
    resolveTypeNames resolved table = .ok resolved :=
  resolveTypeNames_idem n table resolved h

/-- Closed instance of `c8_resolve_type_names_idempotent`: a model whose
concept declaration's super type was resolved once resolves to itself. -/
theorem c8_resolve_type_names_idempotent_witness :
    resolveTypeNames
      (.model "m" (some [])
        (some [.conceptDecl "C" (some ⟨"Concept", some "concerto"⟩) [] none]))
      [("Concept", "concerto")]
    = .ok (.model "m" (some [])
        (some [.conceptDecl "C" (some ⟨"Concept", some "concerto"⟩) []
          none])) :=
  c8_resolve_type_names_idempotent
    (.model "m" (some [])
      (some [.conceptDecl "C" (some ⟨"Concept", none⟩) [] none]))
    [("Concept", "concerto")]
    (.model "m" (some [])
      (some [.conceptDecl "C" (some ⟨"Concept", some "concerto"⟩) [] none]))
    rfl

/-! ## C10: the EnumProperty branch crashes, but is unreachable from a
Model walk -/

/-- Schema conformance (`concerto.metamodel`) for decorator literals:
`DecoratorLiteral` is `DecoratorString`, `DecoratorNumber`,
`DecoratorBoolean` or `DecoratorTypeReference`. -/
def wfLiteralB : Node → Bool
  | .decoratorString _ => true
  | .decoratorNumber => true
  | .decoratorBoolean _ => true
  | .decoratorTypeReference _ => true
  | _ => false

/-- Schema conformance for `Decorator` nodes: arguments, when present,
are decorator literals. -/
def wfDecoratorB : Node → Bool
  | .decorator _ none => true
  | .decorator _ (some args) => args.all wfLiteralB
  | _ => false

/-- All elements of an optional array satisfy `p` (an absent array is
vacuously fine). -/
def wfOptAll (p : Node → Bool) : Option (List Node) → Bool
  | none => true
  | some ds => ds.all p

/-- Schema conformance for `EnumProperty` nodes. -/
def wfEnumPropertyB : Node → Bool
  | .enumProperty _ decorators => wfOptAll wfDecoratorB decorators
  | _ => false

/-- Schema conformance for `Property` nodes: one of the eight concrete
property kinds (not `EnumProperty`, which the schema allows only inside
`EnumDeclaration.properties`), with well-formed decorators. -/
def wfPropertyB : Node → Bool
  | .objectProperty _ _ decorators => wfOptAll wfDecoratorB decorators
  | .relationshipProperty _ _ decorators => wfOptAll wfDecoratorB decorators
  | .booleanProperty _ decorators => wfOptAll wfDecoratorB decorators
  | .dateTimeProperty _ decorators => wfOptAll wfDecoratorB decorators
  | .stringProperty _ decorators => wfOptAll wfDecoratorB decorators
  | .doubleProperty _ decorators => wfOptAll wfDecoratorB decorators
  | .integerProperty _ decorators => wfOptAll wfDecoratorB decorators
  | .longProperty _ decorators => wfOptAll wfDecoratorB decorators
  | _ => false

/-- Schema conformance for `Declaration` nodes: class-like declarations
hold `Property` children, enum declarations hold `EnumProperty` children. -/
def wfDeclarationB : Node → Bool
  | .assetDecl _ _ properties decorators =>
    properties.all wfPropertyB && wfOptAll wfDecoratorB decorators
  | .conceptDecl _ _ properties decorators =>
    properties.all wfPropertyB && wfOptAll wfDecoratorB decorators
  | .eventDecl _ _ properties decorators =>
    properties.all wfPropertyB && wfOptAll wfDecoratorB decorators
  | .transactionDecl _ _ properties decorators =>
    properties.all wfPropertyB && wfOptAll wfDecoratorB decorators
  | .participantDecl _ _ properties decorators =>
    properties.all wfPropertyB && wfOptAll wfDecoratorB decorators
  | .enumDecl _ properties decorators =>
    properties.all wfEnumPropertyB && wfOptAll wfDecoratorB decorators
  | _ => false

/-- Schema conformance for `Model` nodes. -/
def wfModelB : Node → Bool
  | .model _ _ declarations => wfOptAll wfDeclarationB declarations
  | _ => false

/-- If no element of a list can produce a `typeError`, neither can the
list traversal. -/
theorem resolveNodeList_no_typeError (l : List Node) (table : Table)
    (h : ∀ d ∈ l, ∀ msg, resolveTypeNames d table ≠ .error (.typeError msg)) :
    ∀ msg, resolveNodeList l table ≠ .error (.typeError msg) := by
  induction l with
  | nil => intro msg hc; exact Except.noConfusion hc
  | cons d ds ih =>
    intro msg hc
    have hunf : resolveNodeList (d :: ds) table
        = (resolveTypeNames d table >>= fun a =>
            resolveNodeList ds table >>= fun b => Except.ok (a :: b)) := rfl
    cases hd : resolveTypeNames d table with
    | error e =>
      rw [hunf, hd, errorBind] at hc
      injection hc with hc
      rw [hc] at hd
      exact h d (List.Mem.head _) msg hd
    | ok d2 =>
      rw [hunf, hd, okBind] at hc
      cases hds : resolveNodeList ds table with
      | error e =>
        rw [hds, errorBind] at hc
        injection hc with hc
        rw [hc] at hds
        exact ih (fun d3 hd3 => h d3 (List.Mem.tail _ hd3)) msg hds
      | ok ds2 =>
        rw [hds, okBind] at hc
        exact Except.noConfusion hc

/-- A well-formed decorator literal never produces a `typeError`:
the only fallible kind, `DecoratorTypeReference`, can only raise
`nameNotFound`. -/
theorem literal_no_typeError (a : Node) (table : Table)
    (ha : wfLiteralB a = true) :
    ∀ msg, resolveTypeNames a table ≠ .error (.typeError msg) := by
  intro msg hc
  cases a <;> try exact Bool.noConfusion ha
  case decoratorString v => exact Except.noConfusion hc
  case decoratorNumber => exact Except.noConfusion hc
  case decoratorBoolean v => exact Except.noConfusion hc
  case decoratorTypeReference ty =>
    have hunf : resolveTypeNames (.decoratorTypeReference ty) table
        = (resolveName ty.name table).map
            (fun a => Node.decoratorTypeReference
              (TypeIdentifier.mk ty.name (some a))) := rfl
    cases hr : resolveName ty.name table with
    | error e =>
      rw [hunf, hr, errorMap] at hc
      injection hc with hc
      rw [resolveName_error_inv hr] at hc
      exact JSError.noConfusion hc
    | ok ns2 =>
      rw [hunf, hr, okMap] at hc
      exact Except.noConfusion hc

/-- A well-formed decorator never produces a `typeError`. -/
theorem decorator_no_typeError (a : Node) (table : Table)
    (ha : wfDecoratorB a = true) :
    ∀ msg, resolveTypeNames a table ≠ .error (.typeError msg) := by
  intro msg hc
  cases a <;> try exact Bool.noConfusion ha
  case decorator name arguments =>
    cases arguments with
    | none => exact Except.noConfusion hc
    | some args =>
      have ha2 : args.all wfLiteralB = true := ha
      have hunf : resolveTypeNames (.decorator name (some args)) table
          = (resolveNodeList args table).map
              (fun x => Node.decorator name (some x)) := rfl
      cases hrl : resolveNodeList args table with
      | error e =>
        rw [hunf, hrl, errorMap] at hc
        injection hc with hc
        rw [hc] at hrl
        exact resolveNodeList_no_typeError args table
          (fun d hd => literal_no_typeError d table
            (List.all_eq_true.mp ha2 d hd)) msg hrl
      | ok ds2 =>
        rw [hunf, hrl, okMap] at hc
        exact Except.noConfusion hc

/-- A well-formed optional decorator array never produces a `typeError`. -/
theorem resolveOptList_no_typeError (o : Option (List Node)) (table : Table)
    (h : wfOptAll wfDecoratorB o = true) :
    ∀ msg, resolveOptList o table ≠ .error (.typeError msg) := by
  intro msg hc
  cases o with
  | none => exact Except.noConfusion hc
  | some ds =>
    have h2 : ds.all wfDecoratorB = true := h
    have hunf : resolveOptList (some ds) table
        = (resolveNodeList ds table).map some := rfl
    cases hrl : resolveNodeList ds table with
    | error e =>
      rw [hunf, hrl, errorMap] at hc
      injection hc with hc
      rw [hc] at hrl
      exact resolveNodeList_no_typeError ds table
        (fun d hd => decorator_no_typeError d table
          (List.all_eq_true.mp h2 d hd)) msg hrl
    | ok ds2 =>
      rw [hunf, hrl, okMap] at hc
      exact Except.noConfusion hc

/-- The shared body of the five class-like declaration cases never
produces a `typeError` on well-formed children. -/
theorem classBody_no_typeError (st : Option TypeIdentifier)
    (props : List Node) (decs : Option (List Node)) (table : Table)
    (k : Option TypeIdentifier → List Node → Option (List Node) → Node)
    (hp : props.all wfPropertyB = true)
    (hd : wfOptAll wfDecoratorB decs = true)
    (hprops : ∀ d ∈ props, ∀ msg,
      resolveTypeNames d table ≠ .error (.typeError msg)) :
    ∀ msg,
      (resolveSuperType st table >>= fun a =>
        resolveNodeList props table >>= fun b =>
        resolveOptList decs table >>= fun c =>
        Except.ok (k a b c)) ≠ .error (.typeError msg) := by
  intro msg hc
  cases hst : resolveSuperType st table with
  | error e =>
    rw [hst, errorBind] at hc
    injection hc with hc
    obtain ⟨nm, he⟩ := resolveSuperType_error_inv hst
    rw [he] at hc
    exact JSError.noConfusion hc
  | ok st2 =>
    rw [hst, okBind] at hc
    cases hpr : resolveNodeList props table with
    | error e =>
      rw [hpr, errorBind] at hc
      injection hc with hc
      rw [hc] at hpr
      exact resolveNodeList_no_typeError props table hprops msg hpr
    | ok props2 =>
      rw [hpr, okBind] at hc
      cases hro : resolveOptList decs table with
      | error e =>
        rw [hro, errorBind] at hc
        injection hc with hc
        rw [hc] at hro
        exact resolveOptList_no_typeError decs table hd msg hro
      | ok decs2 =>
        rw [hro, okBind] at hc
        exact Except.noConfusion hc

/-- A well-formed property never produces a `typeError`: the fallible
kinds can only raise `nameNotFound`, and `EnumProperty` is not a
`Property` in the schema. -/
theorem property_no_typeError (a : Node) (table : Table)
    (ha : wfPropertyB a = true) :
    ∀ msg, resolveTypeNames a table ≠ .error (.typeError msg) := by
  intro msg hc
  cases a <;> try exact Bool.noConfusion ha
  case booleanProperty name decorators => exact Except.noConfusion hc
  case dateTimeProperty name decorators => exact Except.noConfusion hc
  case stringProperty name decorators => exact Except.noConfusion hc
  case doubleProperty name decorators => exact Except.noConfusion hc
  case integerProperty name decorators => exact Except.noConfusion hc
  case longProperty name decorators => exact Except.noConfusion hc
  case objectProperty name ty decorators =>
    have ha2 : wfOptAll wfDecoratorB decorators = true := ha
    have hunf : resolveTypeNames (.objectProperty name ty decorators) table
        = (resolveName ty.name table >>= fun a =>
            resolveOptList decorators table >>= fun b =>
            Except.ok (Node.objectProperty name
              (TypeIdentifier.mk ty.name (some a)) b)) := rfl
    cases hr : resolveName ty.name table with
    | error e =>
      rw [hunf, hr, errorBind] at hc
      injection hc with hc
      rw [resolveName_error_inv hr] at hc
      exact JSError.noConfusion hc
    | ok ns2 =>
      rw [hunf, hr, okBind] at hc
      cases hro : resolveOptList decorators table with
      | error e =>
        rw [hro, errorBind] at hc
        injection hc with hc
        rw [hc] at hro
        exact resolveOptList_no_typeError decorators table ha2 msg hro
      | ok decs2 =>
        rw [hro, okBind] at hc
        exact Except.noConfusion hc
  case relationshipProperty name ty decorators =>
    have ha2 : wfOptAll wfDecoratorB decorators = true := ha
    have hunf : resolveTypeNames
          (.relationshipProperty name ty decorators) table
        = (resolveName ty.name table >>= fun a =>
            resolveOptList decorators table >>= fun b =>
            Except.ok (Node.relationshipProperty name
              (TypeIdentifier.mk ty.name (some a)) b)) := rfl
    cases hr : resolveName ty.name table with
    | error e =>
      rw [hunf, hr, errorBind] at hc
      injection hc with hc
      rw [resolveName_error_inv hr] at hc
      exact JSError.noConfusion hc
    | ok ns2 =>
      rw [hunf, hr, okBind] at hc
      cases hro : resolveOptList decorators table with
      | error e =>
        rw [hro, errorBind] at hc
        injection hc with hc
        rw [hc] at hro
        exact resolveOptList_no_typeError decorators table ha2 msg hro
      | ok decs2 =>
        rw [hro, okBind] at hc
        exact Except.noConfusion hc

/-- A well-formed declaration never produces a `typeError`.  In the
`EnumDeclaration` case this holds precisely because the pass never
recurses into the `EnumProperty` children (each of which *would*
crash). -/
theorem declaration_no_typeError (a : Node) (table : Table)
    (ha : wfDeclarationB a = true) :
    ∀ msg, resolveTypeNames a table ≠ .error (.typeError msg) := by
  intro msg hc
  cases a <;> try exact Bool.noConfusion ha
  case assetDecl name st props decs =>
    have ha2 : (props.all wfPropertyB && wfOptAll wfDecoratorB decs)
        = true := ha
    obtain ⟨hp, hd⟩ := Bool.and_eq_true_iff.mp ha2
    exact classBody_no_typeError st props decs table
      (fun a b c => Node.assetDecl name a b c) hp hd
      (fun d hdm => property_no_typeError d table
        (List.all_eq_true.mp hp d hdm)) msg hc
  case conceptDecl name st props decs =>
    have ha2 : (props.all wfPropertyB && wfOptAll wfDecoratorB decs)
        = true := ha
    obtain ⟨hp, hd⟩ := Bool.and_eq_true_iff.mp ha2
    exact classBody_no_typeError st props decs table
      (fun a b c => Node.conceptDecl name a b c) hp hd
      (fun d hdm => property_no_typeError d table
        (List.all_eq_true.mp hp d hdm)) msg hc
  case eventDecl name st props decs =>
    have ha2 : (props.all wfPropertyB && wfOptAll wfDecoratorB decs)
        = true := ha
    obtain ⟨hp, hd⟩ := Bool.and_eq_true_iff.mp ha2
    exact classBody_no_typeError st props decs table
      (fun a b c => Node.eventDecl name a b c) hp hd
      (fun d hdm => property_no_typeError d table
        (List.all_eq_true.mp hp d hdm)) msg hc
  case transactionDecl name st props decs =>
    have ha2 : (props.all wfPropertyB && wfOptAll wfDecoratorB decs)
        = true := ha
    obtain ⟨hp, hd⟩ := Bool.and_eq_true_iff.mp ha2
    exact classBody_no_typeError st props decs table
      (fun a b c => Node.transactionDecl name a b c) hp hd
      (fun d hdm => property_no_typeError d table
        (List.all_eq_true.mp hp d hdm)) msg hc
  case participantDecl name st props decs =>
    have ha2 : (props.all wfPropertyB && wfOptAll wfDecoratorB decs)
        = true := ha
    obtain ⟨hp, hd⟩ := Bool.and_eq_true_iff.mp ha2
    exact classBody_no_typeError st props decs table
      (fun a b c => Node.participantDecl name a b c) hp hd
      (fun d hdm => property_no_typeError d table
        (List.all_eq_true.mp hp d hdm)) msg hc
  case enumDecl name props decs =>
    have ha2 : (props.all wfEnumPropertyB && wfOptAll wfDecoratorB decs)
        = true := ha
    obtain ⟨hp, hd⟩ := Bool.and_eq_true_iff.mp ha2
    cases decs with
    | none => exact Except.noConfusion hc
    | some ds =>
      have hd2 : ds.all wfDecoratorB = true := hd
      have hunf : resolveTypeNames (.enumDecl name props (some ds)) table
          = (resolveNodeList ds table).map
              (fun x => Node.enumDecl name props (some x)) := rfl
      cases hrl : resolveNodeList ds table with
      | error e =>
        rw [hunf, hrl, errorMap] at hc
        injection hc with hc
        rw [hc] at hrl
        exact resolveNodeList_no_typeError ds table
          (fun d hdm => decorator_no_typeError d table
            (List.all_eq_true.mp hd2 d hdm)) msg hrl
      | ok ds2 =>
        rw [hunf, hrl, okMap] at hc
        exact Except.noConfusion hc

/-- **C10.** Invoking `resolveTypeNames` directly on an `EnumProperty`
node dereferences `metaModel.type.name`, but the `EnumProperty` schema
has no `type` field, so the call fails with an unguarded `TypeError` for
every `EnumProperty` input; yet the branch is unreachable through a walk
that starts at a schema-conformant `Model` node, because the
`EnumDeclaration` case never recurses into its properties. -/
theorem c10_enum_property_branch_unreachable (m : Node) (table : Table)
    (name : String) (decorators : Option (List Node))
    (hm : wfModelB m = true) :
    resolveTypeNames (.enumProperty name decorators) table
      = .error (.typeError
          "Cannot read properties of undefined (reading 'name')")
    ∧ ∀ msg, resolveTypeNames m table ≠ .error (.typeError msg) := by
  refine ⟨rfl, fun msg hc => ?_⟩
  cases m <;> try exact Bool.noConfusion hm
  case model ns imports declarations =>
    cases declarations with
    | none => exact Except.noConfusion hc
    | some ds =>
      have hm2 : ds.all wfDeclarationB = true := hm
      have hunf : resolveTypeNames (.model ns imports (some ds)) table
          = (resolveNodeList ds table).map
              (fun x => Node.model ns imports (some x)) := rfl
      cases hrl : resolveNodeList ds table with
      | error e =>
        rw [hunf, hrl, errorMap] at hc
        injection hc with hc
        rw [hc] at hrl
        exact resolveNodeList_no_typeError ds table
          (fun d hdm => declaration_no_typeError d table
            (List.all_eq_true.mp hm2 d hdm)) msg hrl
      | ok ds2 =>
        rw [hunf, hrl, okMap] at hc
        exact Except.noConfusion hc

/-- Closed instance of `c10_enum_property_branch_unreachable` at a model
that contains an enum declaration with an enum property. -/
theorem c10_enum_property_branch_witness :
    resolveTypeNames (.enumProperty "E" none) []
      = .error (.typeError
          "Cannot read properties of undefined (reading 'name')")
    ∧ resolveTypeNames
        (.model "m" (some [])
          (some [.enumDecl "Color" [.enumProperty "RED" none] none])) []
      ≠ .error (.typeError "boom") :=
  ⟨(c10_enum_property_branch_unreachable
      (.model "m" (some [])
        (some [.enumDecl "Color" [.enumProperty "RED" none] none]))
      [] "E" none (by decide)).1,
   (c10_enum_property_branch_unreachable
      (.model "m" (some [])
        (some [.enumDecl "Color" [.enumProperty "RED" none] none]))
      [] "E" none (by decide)).2 "boom"⟩

/-! ## C9: absent `imports` is read unguarded -/

/-- **C9.** `createNameTable` iterates `metaModel.imports` without a
presence check: on a model whose optional `imports` field is absent the
call fails with an unguarded `TypeError` instead of treating the import
list as empty — while the `declarations` field *is* guarded, so a model
with empty imports and absent declarations succeeds with just the
built-in seeds. -/
theorem c9_absent_imports_crashes :
    (∀ (reg : Registry) (ns : String) (declarations : Option (List Node)),
      createNameTable reg (.model ns none declarations)
        = .error (.typeError
            "Cannot read properties of undefined (reading 'forEach')"))
    ∧ (∀ (reg : Registry) (ns : String),
      createNameTable reg (.model ns (some []) none) = .ok builtinTable) :=
  ⟨fun _ _ _ => rfl, fun _ _ => rfl⟩

end Concerto
